import Mathlib

/-!
Verification of the résumé-to-PDF layout engine of the NailedJob repository
(`src/components/steps/resume-builder-step.tsx`, function `handleDownloadPdf`,
first document / current iteration, lines 82-442).

Text is modelled as `List Char`; JavaScript string operations (`trim`,
`toUpperCase`, `toLowerCase`, `startsWith`, `includes`, `split`, `substring`,
`lastIndexOf`) are embedded as executable functions on `List Char`.
Page-geometry coordinates (millimetres) are rationals.
-/

namespace NailedJob

/-- A line of text, as a list of characters (a JavaScript string). -/
abbrev Line := List Char

/-- JavaScript whitespace characters relevant here (ASCII subset used by
`String.prototype.trim` and `\s`). -/
def isWsChar (c : Char) : Bool :=
  c = ' ' || c = '\t' || c = '\n' || c = '\r' || c = '\x0b' || c = '\x0c'

/-- `String.prototype.toUpperCase` restricted to the characters this
repository's data actually uses: ASCII letters plus the Spanish accented
vowels and ñ appearing in the localized titles and labels. -/
def charUpper (c : Char) : Char :=
  if 'a' ≤ c ∧ c ≤ 'z' then Char.ofNat (c.toNat - 32)
  else if c = 'á' then 'Á'
  else if c = 'é' then 'É'
  else if c = 'í' then 'Í'
  else if c = 'ó' then 'Ó'
  else if c = 'ú' then 'Ú'
  else if c = 'ñ' then 'Ñ'
  else c

/-- `String.prototype.toLowerCase`, same character repertoire. -/
def charLower (c : Char) : Char :=
  if 'A' ≤ c ∧ c ≤ 'Z' then Char.ofNat (c.toNat + 32)
  else if c = 'Á' then 'á'
  else if c = 'É' then 'é'
  else if c = 'Í' then 'í'
  else if c = 'Ó' then 'ó'
  else if c = 'Ú' then 'ú'
  else if c = 'Ñ' then 'ñ'
  else c

/-- Uppercase a whole line (`line.toUpperCase()`). -/
def upper (l : Line) : Line := l.map charUpper

/-- Lowercase a whole line (`line.toLowerCase()`). -/
def lower (l : Line) : Line := l.map charLower

/-- `line.trim()`: strip leading and trailing whitespace. -/
def trim (l : Line) : Line :=
  ((l.dropWhile isWsChar).reverse.dropWhile isWsChar).reverse

/-- `a.startsWith(b)` on character lists. -/
def startsWithL : Line → Line → Bool
  | _, [] => true
  | [], _ :: _ => false
  | a :: l, b :: p => a == b && startsWithL l p

theorem startsWithL_iff (l pat : Line) : startsWithL l pat = true ↔ pat <+: l := by
  induction l generalizing pat with
  | nil =>
    cases pat with
    | nil => simp [startsWithL]
    | cons b p => simp [startsWithL]
  | cons a l ih =>
    cases pat with
    | nil => simp [startsWithL]
    | cons b p =>
      simp only [startsWithL, Bool.and_eq_true, beq_iff_eq, List.cons_prefix_cons, ih]
      exact and_congr_left (fun _ => eq_comm)

/-- `a.includes(b)`: `pat` occurs as a contiguous substring of `l`. -/
def containsSub (l pat : Line) : Bool :=
  match l with
  | [] => pat.isEmpty
  | _ :: rest => startsWithL l pat || containsSub rest pat

theorem containsSub_iff (l pat : Line) : containsSub l pat = true ↔ pat <:+: l := by
  induction l with
  | nil =>
    cases pat <;> simp [containsSub, List.isEmpty]
  | cons a rest ih =>
    rw [containsSub, List.infix_cons_iff, Bool.or_eq_true, startsWithL_iff, ih]

/-- `str.split(sep)` for a one-character separator, JavaScript semantics:
the result is never empty, and separators at the ends yield empty parts. -/
def splitOnChar (sep : Char) : Line → List Line
  | [] => [[]]
  | c :: rest =>
    let r := splitOnChar sep rest
    if c = sep then [] :: r
    else
      match r with
      | [] => [[c]]
      | p :: ps => (c :: p) :: ps

theorem splitOnChar_ne_nil (sep : Char) (l : Line) : splitOnChar sep l ≠ [] := by
  induction l with
  | nil => simp [splitOnChar]
  | cons c rest ih =>
    simp only [splitOnChar]
    split
    · simp
    · match h : splitOnChar sep rest with
      | [] => exact absurd h ih
      | p :: ps => simp [h]

/-- Every character of every part of `splitOnChar` is a character of the
input (and is not the separator). -/
theorem splitOnChar_mem (sep : Char) (l : Line) :
    ∀ p ∈ splitOnChar sep l, ∀ c ∈ p, c ∈ l := by
  induction l with
  | nil => intro p hp c hc; simp [splitOnChar] at hp; simp [hp] at hc
  | cons a rest ih =>
    intro p hp c hc
    simp only [splitOnChar] at hp
    by_cases ha : a = sep
    · simp [ha] at hp
      rcases hp with hp | hp
      · simp [hp] at hc
      · exact List.mem_cons_of_mem _ (ih p hp c hc)
    · simp [ha] at hp
      match hr : splitOnChar sep rest with
      | [] => exact absurd hr (splitOnChar_ne_nil sep rest)
      | q :: qs =>
        rw [hr] at hp
        simp at hp
        rcases hp with hp | hp
        · subst hp
          rcases List.mem_cons.1 hc with hc | hc
          · simp [hc]
          · exact List.mem_cons_of_mem _ (ih q (by rw [hr]; exact List.mem_cons_self q qs) c hc)
        · exact List.mem_cons_of_mem _ (ih p (by rw [hr]; exact List.mem_cons_of_mem q hp) c hc)

/-! ## Title dictionary

`sectionTitlesMap` in `handleDownloadPdf`: the translation table
(`src/lib/translations.ts`) defines no `sectionTitle_*` keys, so
`getSectionTitle` always returns its locale-dependent fallback string. -/

/-- Canonical section keys, in the insertion order of the source's
`sectionTitlesMap` object (the order the segmenter tests titles in). -/
inductive SectionKey where
  | CONTACT_INFORMATION
  | PROFESSIONAL_PROFILE
  | WORK_EXPERIENCE
  | EDUCATION
  | SKILLS
  | LANGUAGES
  | INTERESTS
  deriving DecidableEq, Repr, Fintype

open SectionKey

/-- Dictionary iteration order (`for (const key in sectionTitlesMap)`). -/
def titleKeys : List SectionKey :=
  [CONTACT_INFORMATION, PROFESSIONAL_PROFILE, WORK_EXPERIENCE, EDUCATION,
   SKILLS, LANGUAGES, INTERESTS]

/-- The two locales the PDF builder distinguishes
(`resumeLanguage.toLowerCase().startsWith('es') ? 'es' : 'en'`). -/
inductive Locale where
  | en
  | es
  deriving DecidableEq, Repr

/-- `currentLocale` computation from the `resumeLanguage` prop. -/
def localeOf (resumeLanguage : Line) : Locale :=
  if startsWithL (lower resumeLanguage) ("es".data) then Locale.es else Locale.en

/-- The localized section titles (the `getSectionTitle` fallbacks, which are
what the map holds since the translation table lacks these keys). -/
def titleOf : Locale → SectionKey → Line
  | Locale.en, CONTACT_INFORMATION => "CONTACT INFORMATION".data
  | Locale.en, PROFESSIONAL_PROFILE => "PROFESSIONAL PROFILE".data
  | Locale.en, WORK_EXPERIENCE => "WORK EXPERIENCE".data
  | Locale.en, EDUCATION => "EDUCATION".data
  | Locale.en, SKILLS => "SKILLS".data
  | Locale.en, LANGUAGES => "LANGUAGES".data
  | Locale.en, INTERESTS => "INTERESTS".data
  | Locale.es, CONTACT_INFORMATION => "DETALLES PERSONALES".data
  | Locale.es, PROFESSIONAL_PROFILE => "PERFIL PROFESIONAL".data
  | Locale.es, WORK_EXPERIENCE => "EXPERIENCIA LABORAL".data
  | Locale.es, EDUCATION => "FORMACIÓN".data
  | Locale.es, SKILLS => "HABILIDADES".data
  | Locale.es, LANGUAGES => "IDIOMAS".data
  | Locale.es, INTERESTS => "INTERESES".data

/-! ## Section segmenter (`handleDownloadPdf`, lines 145-167) -/

/-- Does `l` start with `':'`? (`startsWith(':')`). -/
def startsColon : Line → Bool
  | ':' :: _ => true
  | _ => false

/-- The title test of the segmenter loop:
`trimmedLineUpper.startsWith(title.toUpperCase()) &&
 trimmedLineUpper.substring(title.length).trim().startsWith(':')`. -/
def isTitleMatch (loc : Locale) (k : SectionKey) (line : Line) : Bool :=
  let lu := upper (trim line)
  let t := titleOf loc k
  startsWithL lu (upper t) && startsColon (trim (lu.drop t.length))

/-- `line.replace(/^:\s*/, '')`. -/
def stripLeadColonWs : Line → Line
  | ':' :: rest => rest.dropWhile isWsChar
  | l => l

/-- `line.substring(title.length).replace(/^:\s*/, '').trim()`:
the content the segmenter pushes from a matched title line. -/
def contentAfterTitle (loc : Locale) (k : SectionKey) (line : Line) : Line :=
  trim (stripLeadColonWs (line.drop (titleOf loc k).length))

/-- The first key (in dictionary order) whose title matches the line. -/
def findTitleKey (loc : Locale) (line : Line) : Option SectionKey :=
  titleKeys.find? (fun k => isTitleMatch loc k line)

/-- Segmenter state: the `sectionContent` record and `currentSectionKey`. -/
structure SegState where
  sections : SectionKey → Option (List Line)
  currentKey : Option SectionKey

/-- `sectionContent[k] = v`. -/
def updateSections (m : SectionKey → Option (List Line)) (k : SectionKey)
    (v : List Line) : SectionKey → Option (List Line) :=
  fun k' => if k' = k then some v else m k'

/-- One iteration of the segmenter's `for (const line of resumeLines)` body. -/
def segmentStep (loc : Locale) (st : SegState) (line : Line) : SegState :=
  match findTitleKey loc line with
  | some k =>
    { sections := updateSections st.sections k
        (if contentAfterTitle loc k line = [] then []
         else [contentAfterTitle loc k line]),
      currentKey := some k }
  | none =>
    match st.currentKey with
    | some k =>
      { st with
        sections := updateSections st.sections k ((st.sections k).getD [] ++ [trim line]) }
    | none => st

/-- The empty segmenter state (`sectionContent = {}`, `currentSectionKey = null`). -/
def initSegState : SegState := ⟨fun _ => none, none⟩

/-- Run the segmenter over a list of lines. -/
def segmentLines (loc : Locale) (lines : List Line) : SegState :=
  lines.foldl (segmentStep loc) initSegState

/-! ## Input preprocessing (`handleDownloadPdf`, lines 130-131) -/

/-- `tailoredResume.split('\n').map(l => l.trim()).filter(l => l)`. -/
def resumeLinesOf (resume : Line) : List Line :=
  ((splitOnChar '\n' resume).map trim).filter (fun l => !l.isEmpty)

/-- `resumeLines.length > 0 ? resumeLines.shift()?.trim() || "Candidate Name"
: "Candidate Name"`. -/
def candidateFullNameOf (resume : Line) : Line :=
  match resumeLinesOf resume with
  | [] => "Candidate Name".data
  | n :: _ => let t := trim n; if t.isEmpty then "Candidate Name".data else t

/-- The lines remaining after `shift()` removed the name line. -/
def bodyLinesOf (resume : Line) : List Line :=
  (resumeLinesOf resume).tail

/-- The segmenter applied to the whole résumé body. -/
def sectionsOf (loc : Locale) (resume : Line) : SectionKey → Option (List Line) :=
  (segmentLines loc (bodyLinesOf resume)).sections

/-! ## Claims C1 and C4: recognition and default-bucket policy of the segmenter -/

/-- C1, counterexample: for the title-less input
`"John Doe\nhello world\nmore text"` the segmenter yields no
`PROFESSIONAL_PROFILE` section at all: the two body lines are dropped, not
collected into a synthetic PROFILE bucket as the claim states. -/
theorem c1_counterexample :
    sectionsOf Locale.en ("John Doe\nhello world\nmore text").data
      PROFESSIONAL_PROFILE = none := by
  decide

/-- C1, amended: a line processed before any dictionary title has matched is
dropped (`if (!isTitle && currentSectionKey)` fails when no section is open);
consequently an input in which no line matches a title yields no sections at
all — the segmenter state stays empty. -/
theorem c1_amended (loc : Locale) (lines : List Line)
    (h : ∀ l ∈ lines, findTitleKey loc l = none) :
    segmentLines loc lines = initSegState := by
  have aux : ∀ ls : List Line, (∀ l ∈ ls, findTitleKey loc l = none) →
      ls.foldl (segmentStep loc) initSegState = initSegState := by
    intro ls
    induction ls with
    | nil => intro _; rfl
    | cons l rest ih =>
      intro hh
      rw [List.foldl_cons]
      have hstep : segmentStep loc initSegState l = initSegState := by
        unfold segmentStep
        rw [hh l (List.mem_cons_self _ _)]
        rfl
      rw [hstep]
      exact ih (fun x hx => hh x (List.mem_cons_of_mem _ hx))
  exact aux lines h

/-- C1, witness for the amended theorem at the concrete input
`["hello world"]`. -/
theorem c1_amended_witness :
    segmentLines Locale.en [("hello world").data] = initSegState :=
  c1_amended Locale.en [("hello world").data] (by decide)

/-- C4, counterexample: the line `"WORK EXPERIENCE"` starts with the
localized WORK_EXPERIENCE title but carries no `':'`, and the segmenter does
not recognize it as a section header (the `':'` is required, not optional):
the following content line is dropped rather than stored under
WORK_EXPERIENCE. -/
theorem c4_counterexample :
    findTitleKey Locale.en ("WORK EXPERIENCE").data = none ∧
    sectionsOf Locale.en ("John Doe\nWORK EXPERIENCE\nBuilt systems").data
      WORK_EXPERIENCE = none := by
  constructor
  · decide
  · decide

/-- C4, amended: a line is recognized as the header of section `k` exactly
when its uppercase-trimmed form starts with the localized title AND the
remainder after the title, trimmed, starts with `':'`; on recognition the
segmenter opens the section under `k`, storing as its first content line the
remainder after a leading `':'` and whitespace when that remainder is
non-empty, and nothing otherwise. -/
theorem c4_amended (loc : Locale) (st : SegState) (line : Line) (k : SectionKey)
    (h : findTitleKey loc line = some k) :
    startsWithL (upper (trim line)) (upper (titleOf loc k)) = true ∧
    startsColon (trim ((upper (trim line)).drop (titleOf loc k).length)) = true ∧
    (segmentStep loc st line).currentKey = some k ∧
    (segmentStep loc st line).sections k =
      some (if contentAfterTitle loc k line = [] then []
            else [contentAfterTitle loc k line]) := by
  have h2 : titleKeys.find? (fun x => isTitleMatch loc x line) = some k := h
  have hm : isTitleMatch loc k line = true := by simpa using List.find?_some h2
  have hm' := hm
  simp only [isTitleMatch, Bool.and_eq_true] at hm'
  refine ⟨hm'.1, hm'.2, ?_, ?_⟩
  · unfold segmentStep
    rw [h]
  · unfold segmentStep
    rw [h]
    simp [updateSections]

/-- C4, witness for the amended theorem at the header line
`"SKILLS: Java, SQL"`. -/
theorem c4_amended_witness :
    (segmentStep Locale.en initSegState ("SKILLS: Java, SQL").data).currentKey
        = some SKILLS ∧
    (segmentStep Locale.en initSegState ("SKILLS: Java, SQL").data).sections
        SKILLS = some [("Java, SQL").data] := by
  have h := c4_amended Locale.en initSegState ("SKILLS: Java, SQL").data SKILLS
    (by decide)
  refine ⟨h.2.2.1, ?_⟩
  rw [h.2.2.2]
  decide

/-! ## Claim C7: segmentation is pure partitioning -/

/-- A résumé body presented as header/content blocks; `blocksJoin` lays the
blocks back out as the flat line list the segmenter consumes. -/
def blocksJoin (bs : List (Line × List Line)) : List Line :=
  bs.foldr (fun b acc => b.1 :: (b.2 ++ acc)) []

theorem blocksJoin_cons (b : Line × List Line) (bs : List (Line × List Line)) :
    blocksJoin (b :: bs) = b.1 :: (b.2 ++ blocksJoin bs) := rfl

/-- Folding the segmenter over non-title lines while a section `k` is open
appends exactly those lines (trimmed) to `k` and touches nothing else. -/
theorem seg_body_append (loc : Locale) (body : List Line) :
    ∀ (st : SegState) (k : SectionKey) (acc : List Line),
      st.currentKey = some k → st.sections k = some acc →
      (∀ l ∈ body, findTitleKey loc l = none) →
      (body.foldl (segmentStep loc) st).sections k = some (acc ++ body.map trim) ∧
      (∀ k', k' ≠ k → (body.foldl (segmentStep loc) st).sections k' = st.sections k') ∧
      (body.foldl (segmentStep loc) st).currentKey = some k := by
  induction body with
  | nil =>
    intro st k acc h1 h2 _
    refine ⟨?_, fun k' _ => rfl, h1⟩
    simpa using h2
  | cons l rest ih =>
    intro st k acc h1 h2 h3
    rw [List.foldl_cons]
    have hl : findTitleKey loc l = none := h3 l (List.mem_cons_self _ _)
    have hstep : segmentStep loc st l =
        ⟨updateSections st.sections k (acc ++ [trim l]), some k⟩ := by
      simp only [segmentStep, hl, h1, h2, Option.getD_some]
    rw [hstep]
    have hcur : (⟨updateSections st.sections k (acc ++ [trim l]), some k⟩ :
        SegState).currentKey = some k := rfl
    have hsec : (⟨updateSections st.sections k (acc ++ [trim l]), some k⟩ :
        SegState).sections k = some (acc ++ [trim l]) := by
      simp [updateSections]
    obtain ⟨ha, hb, hc⟩ := ih _ k (acc ++ [trim l]) hcur hsec
      (fun x hx => h3 x (List.mem_cons_of_mem _ hx))
    refine ⟨?_, ?_, hc⟩
    · rw [ha, List.map_cons, List.append_assoc]
      rfl
    · intro k' hk'
      rw [hb k' hk']
      simp [updateSections, hk']

/-- Blocks whose header keys all differ from `k` never modify section `k`. -/
theorem seg_untouched (loc : Locale) :
    ∀ (bs : List (Line × List Line)) (st : SegState) (k : SectionKey),
      (∀ b ∈ bs, ∃ k', findTitleKey loc b.1 = some k' ∧ k' ≠ k) →
      (∀ b ∈ bs, ∀ l ∈ b.2, findTitleKey loc l = none) →
      ((blocksJoin bs).foldl (segmentStep loc) st).sections k = st.sections k := by
  intro bs
  induction bs with
  | nil => intro st k _ _; rfl
  | cons b rest ih =>
    intro st k hh hb
    obtain ⟨k0, hk0, hne⟩ := hh b (List.mem_cons_self _ _)
    rw [blocksJoin_cons, List.foldl_cons, List.foldl_append]
    have hstep : segmentStep loc st b.1 =
        ⟨updateSections st.sections k0
          (if contentAfterTitle loc k0 b.1 = [] then []
           else [contentAfterTitle loc k0 b.1]), some k0⟩ := by
      simp only [segmentStep, hk0]
    rw [hstep]
    set st1 : SegState :=
      ⟨updateSections st.sections k0
        (if contentAfterTitle loc k0 b.1 = [] then []
         else [contentAfterTitle loc k0 b.1]), some k0⟩ with hst1
    obtain ⟨_, hunch, _⟩ := seg_body_append loc b.2 st1 k0
      (if contentAfterTitle loc k0 b.1 = [] then []
       else [contentAfterTitle loc k0 b.1])
      rfl (by simp [hst1, updateSections])
      (hb b (List.mem_cons_self _ _))
    rw [ih _ k (fun x hx => hh x (List.mem_cons_of_mem _ hx))
      (fun x hx => hb x (List.mem_cons_of_mem _ hx))]
    rw [hunch k (Ne.symm hne)]
    simp only [hst1, updateSections]
    rw [if_neg (Ne.symm hne)]

/-- On a block-structured input with pure headers and pairwise-distinct
section keys, the segmenter stores under each key exactly that block's body
lines, trimmed. -/
theorem seg_blocks_spec (loc : Locale) :
    ∀ (bs : List (Line × List Line)) (st : SegState),
      (∀ b ∈ bs, ∃ k, findTitleKey loc b.1 = some k ∧
          contentAfterTitle loc k b.1 = []) →
      (∀ b ∈ bs, ∀ l ∈ b.2, findTitleKey loc l = none) →
      (bs.map (fun b => findTitleKey loc b.1)).Nodup →
      ∀ b ∈ bs, ∀ k, findTitleKey loc b.1 = some k →
        ((blocksJoin bs).foldl (segmentStep loc) st).sections k =
          some (b.2.map trim) := by
  intro bs
  induction bs with
  | nil => intro st _ _ _ b hb; simp at hb
  | cons b0 rest ih =>
    intro st hh hb hnd b hbmem k hk
    obtain ⟨k0, hk0, hpure0⟩ := hh b0 (List.mem_cons_self _ _)
    have hstep0 : segmentStep loc st b0.1 =
        ⟨updateSections st.sections k0 [], some k0⟩ := by
      simp [segmentStep, hk0, hpure0]
    rw [blocksJoin_cons, List.foldl_cons, List.foldl_append, hstep0]
    obtain ⟨hmain, _, _⟩ := seg_body_append loc b0.2
      ⟨updateSections st.sections k0 [], some k0⟩ k0 [] rfl
      (by simp [updateSections]) (hb b0 (List.mem_cons_self _ _))
    rcases List.mem_cons.1 hbmem with rfl | hbrest
    · have he0 : k0 = k := by
        rw [hk] at hk0
        exact (Option.some_inj.1 hk0).symm
      rw [he0] at hmain
      rw [he0]
      have hrest : ∀ b' ∈ rest, ∃ k'', findTitleKey loc b'.1 = some k'' ∧
          k'' ≠ k := by
        intro b' hb'
        obtain ⟨k'', hk'', _⟩ := hh b' (List.mem_cons_of_mem _ hb')
        refine ⟨k'', hk'', fun he => ?_⟩
        refine (List.nodup_cons.1 hnd).1 (List.mem_map.2 ⟨b', hb', ?_⟩)
        show findTitleKey loc b'.1 = findTitleKey loc b.1
        rw [hk'', he, hk]
      rw [seg_untouched loc rest _ k hrest
        (fun x hx => hb x (List.mem_cons_of_mem _ hx))]
      rw [hmain]
      simp
    · exact ih _ (fun x hx => hh x (List.mem_cons_of_mem _ hx))
        (fun x hx => hb x (List.mem_cons_of_mem _ hx))
        (List.nodup_cons.1 hnd).2 b hbrest k hk

/-- Every stored section is a verbatim, order-preserving selection of the
already-trimmed input lines (assuming pure headers). -/
theorem seg_sublist_aux (loc : Locale) :
    ∀ (lines : List Line) (st : SegState) (pre : List Line),
      (∀ l ∈ lines, trim l = l) →
      (∀ l ∈ lines, ∀ k, findTitleKey loc l = some k →
          contentAfterTitle loc k l = []) →
      (∀ k ls, st.sections k = some ls → List.Sublist ls pre) →
      ∀ k ls, (lines.foldl (segmentStep loc) st).sections k = some ls →
        List.Sublist ls (pre ++ lines) := by
  intro lines
  induction lines with
  | nil =>
    intro st pre _ _ hInv k ls h
    simpa using hInv k ls h
  | cons l rest ih =>
    intro st pre h1 h2 hInv k ls h
    rw [List.foldl_cons] at h
    have hInv' : ∀ k' ls', (segmentStep loc st l).sections k' = some ls' →
        List.Sublist ls' (pre ++ [l]) := by
      intro k' ls' h'
      unfold segmentStep at h'
      cases hfind : findTitleKey loc l with
      | some k0 =>
        rw [hfind] at h'
        have hpure : contentAfterTitle loc k0 l = [] :=
          h2 l (List.mem_cons_self _ _) k0 hfind
        simp only [hpure, if_pos rfl] at h'
        simp only [updateSections] at h'
        by_cases hk' : k' = k0
        · rw [if_pos hk'] at h'
          cases h'
          exact List.nil_sublist _
        · rw [if_neg hk'] at h'
          exact (hInv k' ls' h').trans (List.sublist_append_left _ _)
      | none =>
        rw [hfind] at h'
        cases hcur : st.currentKey with
        | some k0 =>
          rw [hcur] at h'
          simp only [updateSections] at h'
          by_cases hk' : k' = k0
          · rw [if_pos hk'] at h'
            have htr : trim l = l := h1 l (List.mem_cons_self _ _)
            cases hsec : st.sections k0 with
            | none =>
              rw [hsec] at h'
              simp only [Option.getD_none, List.nil_append] at h'
              cases h'
              rw [htr]
              exact List.sublist_append_right _ _
            | some ls0 =>
              rw [hsec] at h'
              simp only [Option.getD_some] at h'
              cases h'
              rw [htr]
              exact (hInv k0 ls0 hsec).append (List.Sublist.refl [l])
          · rw [if_neg hk'] at h'
            exact (hInv k' ls' h').trans (List.sublist_append_left _ _)
        | none =>
          rw [hcur] at h'
          exact (hInv k' ls' h').trans (List.sublist_append_left _ _)
    have := ih (segmentStep loc st l) (pre ++ [l])
      (fun x hx => h1 x (List.mem_cons_of_mem _ hx))
      (fun x hx => h2 x (List.mem_cons_of_mem _ hx))
      hInv' k ls h
    simpa [List.append_assoc] using this

/-- C7: segmentation is pure partitioning.  (1) For any already-trimmed input
whose header lines carry no inline content, every stored section is a
verbatim sublist (same lines, same order, untransformed) of the input lines.
(2) For an input structured as header/body blocks with pairwise-distinct
section keys, pure headers, and trimmed, title-free body lines, the segmenter
recovers each block's body list exactly. -/
theorem c7_roundtrip (loc : Locale) :
    (∀ (lines : List Line) (k : SectionKey) (ls : List Line),
        (∀ l ∈ lines, trim l = l) →
        (∀ l ∈ lines, ∀ k', findTitleKey loc l = some k' →
            contentAfterTitle loc k' l = []) →
        (segmentLines loc lines).sections k = some ls → List.Sublist ls lines) ∧
    (∀ bs : List (Line × List Line),
        (∀ b ∈ bs, ∃ k, findTitleKey loc b.1 = some k ∧
            contentAfterTitle loc k b.1 = []) →
        (∀ b ∈ bs, ∀ l ∈ b.2, findTitleKey loc l = none) →
        (∀ b ∈ bs, ∀ l ∈ b.2, trim l = l) →
        (bs.map (fun b => findTitleKey loc b.1)).Nodup →
        ∀ b ∈ bs, ∀ k, findTitleKey loc b.1 = some k →
          (segmentLines loc (blocksJoin bs)).sections k = some b.2) := by
  constructor
  · intro lines k ls h1 h2 h
    have := seg_sublist_aux loc lines initSegState [] h1 h2
      (fun k' ls' h' => by simp [initSegState] at h') k ls h
    simpa using this
  · intro bs hh hb htr hnd b hbmem k hk
    have hmain := seg_blocks_spec loc bs initSegState hh hb hnd b hbmem k hk
    rw [segmentLines, hmain]
    congr 1
    have hmapid : b.2.map trim = b.2.map id := by
      apply List.map_congr_left
      intro a ha
      exact htr b hbmem a ha
    rw [hmapid, List.map_id]

/-- C7, witness: the round-trip theorem applied to the concrete
block-structured input `SKILLS: / Java / SQL`. -/
theorem c7_roundtrip_witness :
    (segmentLines Locale.en
        (blocksJoin [(("SKILLS:").data, [("Java").data, ("SQL").data])])).sections
      SKILLS = some [("Java").data, ("SQL").data] :=
  (c7_roundtrip Locale.en).2
    [(("SKILLS:").data, [("Java").data, ("SQL").data])]
    (by decide) (by decide) (by decide) (by decide)
    (("SKILLS:").data, [("Java").data, ("SQL").data])
    (List.mem_cons_self _ _) SKILLS (by decide)

/-! ## Regex embeddings

Hand-embedded decision procedures for the regular expressions of
`handleDownloadPdf`, with full-alternation search replacing backtracking. -/

/-- JavaScript word character (`\w` = `[A-Za-z0-9_]`). -/
def isWordChar (c : Char) : Bool :=
  ('a' ≤ c && c ≤ 'z') || ('A' ≤ c && c ≤ 'Z') || c.isDigit || c = '_'

/-- All suffixes of a line, each with the character immediately before it
(`none` at the start of the string): the candidate match positions. -/
def tailsP : Option Char → Line → List (Option Char × Line)
  | p, [] => [(p, [])]
  | p, c :: rest => (p, c :: rest) :: tailsP (some c) rest

/-- `\b` on the left of a match position. -/
def boundaryBefore : Option Char → Bool
  | none => true
  | some c => !isWordChar c

/-- `\b` on the right of a match. -/
def boundaryAfter : Line → Bool
  | [] => true
  | c :: _ => !isWordChar c

/-- Consume exactly `n` digits (`\d{n}`), returning the rest. -/
def takeDigits : Nat → Line → Option Line
  | 0, s => some s
  | _ + 1, [] => none
  | n + 1, c :: rest => if c.isDigit then takeDigits n rest else none

/-- The zero-or-one choices of `[\s-]?`. -/
def sepChoices : Line → List Line
  | [] => [[]]
  | c :: rest =>
    if isWsChar c || c = '-' then [c :: rest, rest] else [c :: rest]

/-- Case-insensitive literal prefix (`pat` given in lowercase). -/
def ciStartsWith (l pat : Line) : Bool := startsWithL (lower l) pat

/-- Does `l` contain any of the (lowercase) literals? -/
def containsAny (l : Line) (pats : List Line) : Bool :=
  pats.any (fun p => containsSub l p)

/-- `/\b\d{3}[\s-]?\d{3}[\s-]?\d{3,4}\b/`: the contact classifier's phone
pattern. -/
def phoneRegexMatch (l : Line) : Bool :=
  (tailsP none l).any fun pr =>
    boundaryBefore pr.1 &&
    (match takeDigits 3 pr.2 with
     | none => false
     | some s1 =>
       (sepChoices s1).any fun s2 =>
         match takeDigits 3 s2 with
         | none => false
         | some s3 =>
           (sepChoices s3).any fun s4 =>
             (match takeDigits 4 s4 with
              | some s5 => boundaryAfter s5
              | none => false) ||
             (match takeDigits 3 s4 with
              | some s5 => boundaryAfter s5
              | none => false))

/-- The contact classifier's date pattern: one or two digits, a slash or
dash separator, one or two digits, another slash or dash, then two to four
digits. -/
def birthDateRegexMatch (l : Line) : Bool :=
  (tailsP none l).any fun pr =>
    ([1, 2].filterMap (fun n => takeDigits n pr.2)).any fun s1 =>
      match s1 with
      | c :: s2 =>
        (c = '/' || c = '-') &&
        (([1, 2].filterMap (fun n => takeDigits n s2)).any fun s3 =>
          match s3 with
          | c' :: s4 =>
            (c' = '/' || c' = '-') &&
            ([2, 3, 4].filterMap (fun n => takeDigits n s4)).length > 0
          | [] => false)
      | [] => false

/-- `/\d{4}\s*(-|–|to|a)\s*(\d{4}|Present|Actual|Hoy|Actualidad)/i`: the
year-range pattern of the entry classifier. -/
def dateRangeMatch (l : Line) : Bool :=
  (tailsP none l).any fun pr =>
    match takeDigits 4 pr.2 with
    | none => false
    | some s1 =>
      let s2 := s1.dropWhile isWsChar
      ([("-").data, ("–").data, ("to").data, ("a").data]).any fun sep =>
        ciStartsWith s2 sep &&
        (let s3 := (s2.drop sep.length).dropWhile isWsChar
         (takeDigits 4 s3).isSome ||
           ([("present").data, ("actual").data, ("hoy").data,
             ("actualidad").data]).any fun t => ciStartsWith s3 t)

/-- The month literals of the entry classifier's month-year pattern, in
source order, lowercased. -/
def monthLiterals : List Line :=
  [("ene").data, ("feb").data, ("mar").data, ("abr").data, ("may").data,
   ("jun").data, ("jul").data, ("ago").data, ("sep").data, ("oct").data,
   ("nov").data, ("dic").data, ("jan").data, ("apr").data, ("jul").data,
   ("aug").data, ("sept").data, ("dec").data]

/-- `/\b(Ene|...|Dec)\b\.?\s\d{4}/i`: the month-year pattern of the entry
classifier. -/
def monthYearMatch (l : Line) : Bool :=
  (tailsP none l).any fun pr =>
    boundaryBefore pr.1 &&
    monthLiterals.any fun m =>
      ciStartsWith pr.2 m &&
      (let s1 := pr.2.drop m.length
       boundaryAfter s1 &&
       (match s1 with
        | '.' :: s2 =>
          (match s2 with
           | c :: s3 => isWsChar c && (takeDigits 4 s3).isSome
           | [] => false)
        | c :: s3 => isWsChar c && (takeDigits 4 s3).isSome
        | [] => false))

/-! ## Contact field classifier (`handleDownloadPdf`, lines 216-242) -/

/-- The label assigned to a contact-section line (empty list = no label),
following the rule chain of the source. -/
def contactLabel (line : Line) : Line :=
  let lc := lower line
  if containsSub lc [('@' : Char)] || containsAny lc [("email").data, ("e-mail").data] then
    ("Email: ").data
  else if phoneRegexMatch lc ||
      containsAny lc [("teléfono").data, ("telefono").data, ("phone").data,
        ("móvil").data, ("mobile").data] then
    ("Tel: ").data
  else if containsSub lc ("linkedin.com/").data ||
      containsSub lc ("github.com/").data then
    ("Web: ").data
  else if birthDateRegexMatch lc ||
      containsAny lc [("fecha de nacimiento").data, ("date of birth").data,
        ("nacimiento").data] then
    ("Nacimiento: ").data
  else if containsAny lc [("calle").data, ("street").data, ("address").data,
      ("dirección").data, ("direccion").data, ("ciudad").data, ("city").data,
      ("país").data, ("country").data] then
    ("Dir: ").data
  else []

/-- The `prefixesToRemove` list of the source, in order. -/
def prefixesToRemove : List Line :=
  [("email:").data, ("e-mail:").data, ("teléfono:").data, ("telefono:").data,
   ("phone:").data, ("móvil:").data, ("mobile:").data, ("web:").data,
   ("dirección:").data, ("direccion:").data, ("address:").data,
   ("fecha de nacimiento:").data, ("date of birth:").data,
   ("nacimiento:").data, ("dir:").data]

/-- The sequential prefix-stripping loop applied to a labelled line's value. -/
def stripContactValue (line : Line) : Line :=
  prefixesToRemove.foldl
    (fun v p => if startsWithL (lower v) p then trim (v.drop p.length) else v)
    line

/-- The final `value` for a contact line (stripping only happens when a label
was assigned). -/
def contactValue (line : Line) : Line :=
  if contactLabel line = [] then line else stripContactValue line

/-- The text the layout prints for a contact line: `(label || "") + value`. -/
def contactLineText (line : Line) : Line :=
  contactLabel line ++ contactValue line

/-- C5, counterexample: the claim's "known set" includes `tel:`, but the
source's `prefixesToRemove` does not; for the line `"Tel: 612 345 678"`
(classified PHONE, label `"Tel: "`) the existing label is not stripped and
the printed text duplicates it. -/
theorem c5_counterexample :
    contactLabel (("Tel: 612 345 678").data) = ("Tel: ").data ∧
    contactValue (("Tel: 612 345 678").data) ≠ ("612 345 678").data ∧
    contactLineText (("Tel: 612 345 678").data) =
      ("Tel: Tel: 612 345 678").data := by
  refine ⟨by decide, by decide, by decide⟩

/-- C5, amended: `"Email: jane@example.com"` classifies as EMAIL with value
`"jane@example.com"` (the `email:` prefix is stripped case-insensitively);
the strip set is exactly the source's `prefixesToRemove` list — it contains
`email:` but not `tel:` nor `birth:`, so a label such as `Tel:` can be
duplicated in the output. -/
theorem c5_amended :
    contactLabel (("Email: jane@example.com").data) = ("Email: ").data ∧
    contactValue (("Email: jane@example.com").data) =
      ("jane@example.com").data ∧
    contactLineText (("Email: jane@example.com").data) =
      ("Email: jane@example.com").data ∧
    ("email:").data ∈ prefixesToRemove ∧
    ("tel:").data ∉ prefixesToRemove ∧
    ("birth:").data ∉ prefixesToRemove ∧
    contactLineText (("Tel: 612 345 678").data) =
      ("Tel: Tel: 612 345 678").data := by
  refine ⟨by decide, by decide, by decide, by decide, by decide, by decide,
    by decide⟩

/-! ## Entry classifier (`drawRightSection`, lines 299-431) -/

/-- All localized titles (`Object.values(sectionTitlesMap)`), used by the
entry classifier's previous-line test. -/
def allSectionTitlesForParsing (loc : Locale) : List Line :=
  titleKeys.map (titleOf loc)

/-- The title-line split of the WORK_EXPERIENCE branch: when the last comma
has a positive index and non-blank text after it, `positionAndCompany` is
the trimmed text before it and `location` the trimmed text FROM the comma on
(the comma is kept). -/
def parseTitleLine (line : Line) : Line × Line :=
  match (line.reverse.findIdx? (fun c => c = ',')) with
  | some j =>
    let i := line.length - 1 - j
    if 0 < i ∧ trim (line.drop (i + 1)) ≠ [] then
      (trim (line.take i), trim (line.drop i))
    else (line, [])
  | none => (line, [])

/-- `isLikelyDateLine`. -/
def isLikelyDateLine (line : Line) : Bool :=
  dateRangeMatch line || monthYearMatch line

/-- `isLikelyActualTitle`, given the previous content line (`none` when
`i = 0`) and the running `isFirstInSubSection` flag.  Note: only the
year-range pattern is consulted for the previous line, not the month-year
pattern. -/
def isLikelyActualTitle (loc : Locale) (prev : Option Line)
    (isFirst : Bool) : Bool :=
  isFirst ||
    (match prev with
     | some pl =>
       dateRangeMatch pl || (trim pl).isEmpty ||
         (allSectionTitlesForParsing loc).any
           (fun st => containsSub (upper pl) (upper st))
     | none => false)

/-- The SKILLS sub-header tests. -/
def isSkillsTechHeader (line : Line) : Bool :=
  startsWithL (lower line) ("técnicas:").data ||
  startsWithL (lower line) ("technical:").data ||
  startsWithL (lower line) ("habilidades técnicas:").data

def isSkillsSoftHeader (line : Line) : Bool :=
  startsWithL (lower line) ("blandas:").data ||
  startsWithL (lower line) ("soft:").data ||
  startsWithL (lower line) ("habilidades blandas:").data

/-- How the right-column loop treats one content line. -/
inductive RightLineClass where
  | titleW (positionAndCompany location : Line)
  | titleE
  | dateLine
  | skillsHeader
  | descLine
  deriving DecidableEq, Repr

/-- The branch selection of the right-column content loop, threaded over the
lines exactly as the source threads `i`/`content[i-1]`/`isFirstInSubSection`. -/
def classifyRightGo (loc : Locale) (key : SectionKey) :
    List Line → Option Line → Bool → List RightLineClass
  | [], _, _ => []
  | line :: rest, prev, isFirst =>
    let likelyTitle := isLikelyActualTitle loc prev isFirst
    let likelyDate := isLikelyDateLine line
    if key = WORK_EXPERIENCE && likelyTitle && !likelyDate then
      let pc := parseTitleLine line
      RightLineClass.titleW pc.1 pc.2 :: classifyRightGo loc key rest (some line) false
    else if key = EDUCATION && likelyTitle && !likelyDate then
      RightLineClass.titleE :: classifyRightGo loc key rest (some line) false
    else if likelyDate then
      RightLineClass.dateLine :: classifyRightGo loc key rest (some line) false
    else if key = SKILLS && isSkillsTechHeader line then
      RightLineClass.skillsHeader :: classifyRightGo loc key rest (some line) false
    else if key = SKILLS && isSkillsSoftHeader line then
      RightLineClass.skillsHeader :: classifyRightGo loc key rest (some line) false
    else
      RightLineClass.descLine ::
        classifyRightGo loc key rest (some line)
          (if (trim line).isEmpty then isFirst else true)

/-- Per-line classification of a right-column section's content. -/
def classifyRight (loc : Locale) (key : SectionKey) (content : List Line) :
    List RightLineClass :=
  classifyRightGo loc key content none true

/-- The spec's `Entry` record (section 4.3 of the specification). -/
structure Entry where
  titlePart : Line
  locationPart : Option Line
  dateRange : Option Line
  description : List Line
  deriving DecidableEq, Repr

/-- Grouping the classified lines into entries, following the spec's words
(a recognized title line opens an entry; date and description lines attach
to the open entry): the classification itself is the code's. -/
def assembleEntries : List (Line × RightLineClass) → Option Entry → List Entry
  | [], cur => cur.toList
  | (line, cls) :: rest, cur =>
    match cls with
    | RightLineClass.titleW pc locn =>
      cur.toList ++
        assembleEntries rest
          (some ⟨pc, if locn = [] then none else some locn, none, []⟩)
    | RightLineClass.titleE =>
      cur.toList ++ assembleEntries rest (some ⟨line, none, none, []⟩)
    | RightLineClass.dateLine =>
      match cur with
      | some e => assembleEntries rest (some { e with dateRange := some line })
      | none => assembleEntries rest (some ⟨[], none, some line, []⟩)
    | _ =>
      match cur with
      | some e =>
        assembleEntries rest
          (some { e with description := e.description ++ [line] })
      | none => assembleEntries rest (some ⟨[], none, none, [line]⟩)

/-- The entries produced for a section's content: the code's per-line
classification, grouped per the spec's entry model. -/
def entriesOf (loc : Locale) (key : SectionKey) (content : List Line) :
    List Entry :=
  assembleEntries (content.zip (classifyRight loc key content)) none

/-- The six-line experience example of the specification's test property 3. -/
def c2ExampleLines : List Line :=
  [("Software Engineer, Acme Corp, Madrid").data,
   ("2020 - Present").data,
   ("Built distributed systems.").data,
   ("Backend Developer, Foo Inc, Barcelona").data,
   ("2017 - 2020").data,
   ("Maintained APIs.").data]

/-- C2, counterexample: on the six-line example the classifier does not
produce the claimed two entries — a line following a date line is itself
treated as a new title, so `"Built distributed systems."` opens an entry and
`"Backend Developer, Foo Inc, Barcelona"` is classified as a description;
three entries result. -/
theorem c2_counterexample :
    entriesOf Locale.en WORK_EXPERIENCE c2ExampleLines ≠
      [⟨("Software Engineer, Acme Corp").data, some (("Madrid").data),
        some (("2020 - Present").data),
        [("Built distributed systems.").data]⟩,
       ⟨("Backend Developer, Foo Inc").data, some (("Barcelona").data),
        some (("2017 - 2020").data), [("Maintained APIs.").data]⟩] ∧
    (entriesOf Locale.en WORK_EXPERIENCE c2ExampleLines).length = 3 := by
  refine ⟨by decide, by decide⟩

/-- C2, amended: on the six-line example the classifier produces three
entries: `{titlePart "Software Engineer, Acme Corp", locationPart ", Madrid"
(the comma is retained), dateRange "2020 - Present", no description}`, then
`{titlePart "Built distributed systems.", dateRange "2017 - 2020",
description ["Backend Developer, Foo Inc, Barcelona"]}` (a line after a date
line is treated as a new title), then `{titlePart "Maintained APIs."}`. -/
theorem c2_amended :
    classifyRight Locale.en WORK_EXPERIENCE c2ExampleLines =
      [RightLineClass.titleW (("Software Engineer, Acme Corp").data)
        ((", Madrid").data),
       RightLineClass.dateLine,
       RightLineClass.titleW (("Built distributed systems.").data) [],
       RightLineClass.descLine,
       RightLineClass.dateLine,
       RightLineClass.titleW (("Maintained APIs.").data) []] ∧
    entriesOf Locale.en WORK_EXPERIENCE c2ExampleLines =
      [⟨("Software Engineer, Acme Corp").data, some ((", Madrid").data),
        some (("2020 - Present").data), []⟩,
       ⟨("Built distributed systems.").data, none,
        some (("2017 - 2020").data),
        [("Backend Developer, Foo Inc, Barcelona").data]⟩,
       ⟨("Maintained APIs.").data, none, none, []⟩] := by
  refine ⟨by decide, by decide⟩

/-! ## Layout engine (`handleDownloadPdf`, lines 82-442)

The drawing surface is modelled as a list of abstract draw commands plus the
cursor/style state jsPDF carries.  The two collaborator families the engine
calls but does not implement — font metrics (`splitTextToSize`,
`getTextWidth`) and the image decoder inside `addImage` — are supplied as a
`Metrics` parameter.  The A4 page is idealized to exactly 210×297 mm. -/

/-- Page width in millimetres. -/
def pageWidth : ℚ := 210

/-- Page height in millimetres. -/
def pageHeight : ℚ := 297

/-- `margin = 15`. -/
def pdfMargin : ℚ := 15

/-- `leftColWidth = pageWidth * 0.33`. -/
def leftColWidth : ℚ := pageWidth * 33 / 100

/-- `rightColX = leftColWidth + 5`. -/
def rightColX : ℚ := leftColWidth + 5

/-- `rightColWidth = pageWidth - rightColX - margin`. -/
def rightColWidth : ℚ := pageWidth - rightColX - pdfMargin

/-- `leftColContentWidth = leftColWidth - margin`. -/
def leftColContentWidth : ℚ := leftColWidth - pdfMargin

/-- An RGB color triple. -/
abbrev RGB := ℕ × ℕ × ℕ

def leftColBGColor : RGB := (240, 243, 244)
def sectionTitleTextLeftCol : RGB := (52, 73, 94)
def bodyTextLeftCol : RGB := (86, 101, 115)
def nameColor : RGB := (44, 62, 80)
def sectionTitleRightCol : RGB := (44, 62, 80)
def bodyTextRightCol : RGB := (52, 73, 94)

/-- The font styles the engine selects (`setFont('Helvetica', …)`). -/
inductive FontStyle where
  | normal
  | bold
  | italic
  deriving DecidableEq, Repr

/-- One abstract draw command. -/
inductive Cmd where
  | text (page : ℕ) (x y : ℚ) (s : Line) (style : FontStyle) (size : ℚ)
      (color : RGB)
  | image (page : ℕ) (x y w h : ℚ)
  | rect (page : ℕ) (x y w h : ℚ) (color : RGB)
  | rule (page : ℕ) (x1 y1 x2 y2 : ℚ) (color : RGB) (width : ℚ)
  deriving DecidableEq, Repr

/-- The jsPDF document state the engine manipulates: emitted commands, the
current page, both column cursors, and the current style registers. -/
structure PdfState where
  cmds : List Cmd
  page : ℕ
  yLeft : ℚ
  yRight : ℚ
  fontStyle : FontStyle
  fontSize : ℚ
  textColor : RGB
  fillColor : RGB
  drawColor : RGB
  lineWidth : ℚ
  deriving DecidableEq, Repr

/-- Fresh jsPDF document plus the engine's initial cursor values. -/
def initPdfState : PdfState :=
  { cmds := [], page := 1, yLeft := pdfMargin, yRight := pdfMargin,
    fontStyle := FontStyle.normal, fontSize := 16, textColor := (0, 0, 0),
    fillColor := (0, 0, 0), drawColor := (0, 0, 0), lineWidth := 1/5 }

def emit (st : PdfState) (c : Cmd) : PdfState :=
  { st with cmds := st.cmds ++ [c] }

/-- `doc.text(s, x, y)` at the current style. -/
def textCmd (st : PdfState) (s : Line) (x y : ℚ) : PdfState :=
  emit st (Cmd.text st.page x y s st.fontStyle st.fontSize st.textColor)

/-- `doc.rect(x, y, w, h, 'F')` at the current fill color. -/
def rectCmd (st : PdfState) (x y w h : ℚ) : PdfState :=
  emit st (Cmd.rect st.page x y w h st.fillColor)

/-- `doc.line(x1, y1, x2, y2)` at the current draw color and line width. -/
def ruleCmd (st : PdfState) (x1 y1 x2 y2 : ℚ) : PdfState :=
  emit st (Cmd.rule st.page x1 y1 x2 y2 st.drawColor st.lineWidth)

/-- `doc.addImage(...)`. -/
def imageCmd (st : PdfState) (x y w h : ℚ) : PdfState :=
  emit st (Cmd.image st.page x y w h)

def setFontStyle (st : PdfState) (f : FontStyle) : PdfState :=
  { st with fontStyle := f }

def setFontSize (st : PdfState) (q : ℚ) : PdfState :=
  { st with fontSize := q }

def setTextColor (st : PdfState) (c : RGB) : PdfState :=
  { st with textColor := c }

def setFillColor (st : PdfState) (c : RGB) : PdfState :=
  { st with fillColor := c }

def setDrawColor (st : PdfState) (c : RGB) : PdfState :=
  { st with drawColor := c }

def setLineWidth (st : PdfState) (q : ℚ) : PdfState :=
  { st with lineWidth := q }

/-- `addPageIfNeeded(currentY, neededHeight)` (lines 110-121): on overflow
it adds a page, resets BOTH column cursors to the top margin, re-emits the
left-column background rectangle, and returns the top margin as the new
cursor value; otherwise it returns the cursor unchanged. -/
def addPageIfNeeded (st : PdfState) (currentY neededHeight : ℚ) :
    PdfState × ℚ :=
  if currentY + neededHeight > pageHeight - pdfMargin then
    let st1 :=
      { st with page := st.page + 1, yLeft := pdfMargin, yRight := pdfMargin }
    let st2 := setFillColor st1 leftColBGColor
    let st3 := rectCmd st2 0 0 leftColWidth pageHeight
    (st3, pdfMargin)
  else (st, currentY)

/-- `yLeft = addPageIfNeeded(yLeft, needed)`. -/
def apnLeft (st : PdfState) (needed : ℚ) : PdfState :=
  let p := addPageIfNeeded st st.yLeft needed
  { p.1 with yLeft := p.2 }

/-- `yRight = addPageIfNeeded(y, needed)` for an explicit `y` argument. -/
def apnRightAt (st : PdfState) (y needed : ℚ) : PdfState :=
  let p := addPageIfNeeded st y needed
  { p.1 with yRight := p.2 }

/-- `yRight = addPageIfNeeded(yRight, needed)`. -/
def apnRight (st : PdfState) (needed : ℚ) : PdfState :=
  apnRightAt st st.yRight needed

/-- `drawLeftColumnBackground()` (lines 123-128). -/
def drawLeftColumnBackground (st : PdfState) : PdfState :=
  rectCmd (setFillColor st leftColBGColor) 0 0 leftColWidth pageHeight

/-- The collaborators the engine consumes but does not implement: jsPDF font
metrics (`splitTextToSize` and `getTextWidth`, as functions of the active
font style and size) and the success of jsPDF's image decoder on a data URI
(`addImage` throws on undecodable data; the engine catches and skips). -/
structure Metrics where
  split : FontStyle → ℚ → Line → ℚ → List Line
  textWidth : FontStyle → ℚ → Line → ℚ
  decodes : Line → Bool

/-- Sources of nondeterminism a layout implementation could in principle
consult (randomness, clock, network, filesystem).  `handleDownloadPdf`
consults none of them — the embedding takes an `Env` and never reads it,
mirroring the absence of `Math.random`, `Date`, `fetch` and file access in
the source. -/
structure Env where
  rand : ℕ → ℚ
  timeNow : ℕ
  netResponse : Line → Line
  fileContents : Line → Line

/-- The name block (lines 169-179). -/
def drawNameBlock (m : Metrics) (st : PdfState) (name : Line) : PdfState :=
  let st := apnLeft st 0
  let st := setTextColor (setFontSize (setFontStyle st FontStyle.bold) 18)
    nameColor
  let nameLines := m.split st.fontStyle st.fontSize (upper name)
    (leftColContentWidth - 5)
  let st := nameLines.foldl
    (fun st nl =>
      let st := apnLeft st 8
      let st := textCmd st nl (pdfMargin / 2 + 2) st.yLeft
      { st with yLeft := st.yLeft + 7 }) st
  { st with yLeft := st.yLeft + 3 }

/-- The MIME capture of `parts[0].match(/:(.*?);/)`: the text between the
first `':'` and the first `';'` after it. -/
def extractMime (l : Line) : Option Line :=
  match l.dropWhile (fun c => c ≠ ':') with
  | ':' :: rest =>
    let cap := rest.takeWhile (fun c => c ≠ ';')
    if cap.length = rest.length then none else some cap
  | _ => none

/-- The image-type extraction of the photo block (lines 186-191): data-URI
split on `','`, MIME capture, `split('/')[1]`, uppercase, and the
PNG/JPEG/JPG whitelist. -/
def parseImageType (uri : Line) : Option Line :=
  let parts := splitOnChar ',' uri
  if parts.length = 2 then
    match parts.head? with
    | some p0 =>
      match extractMime p0 with
      | some mime =>
        match (splitOnChar '/' mime).get? 1 with
        | some ty =>
          let tyU := upper ty
          if !tyU.isEmpty && (tyU = ("PNG").data ∨ tyU = ("JPEG").data ∨
              tyU = ("JPG").data) then some tyU
          else none
        | none => none
      | none => none
    | none => none
  else none

/-- The photo block (lines 181-202): the page check runs unconditionally;
the image is emitted (and the cursor advanced) only when the data URI parses
to a supported type AND the decoder accepts the data; a decode exception is
caught and skipped. -/
def drawPhotoBlock (m : Metrics) (st : PdfState) (photo : Option Line) :
    PdfState :=
  match photo with
  | none => st
  | some uri =>
    let st := apnLeft st 40
    match parseImageType uri with
    | some _ =>
      if m.decodes uri then
        let st := imageCmd st ((leftColWidth - 35) / 2) st.yLeft 35 35
        { st with yLeft := st.yLeft + 35 + 7 }
      else st
    | none => st

/-- The left-column section-header block shared by the contact block and
`drawLeftSection` (bold 11pt title at `margin/2`, then `yLeft += 5`). -/
def leftTitleDraw (title : Line) (st : PdfState) : PdfState :=
  let st := apnLeft st 8
  let st := setTextColor (setFontSize (setFontStyle st FontStyle.bold) 11)
    sectionTitleTextLeftCol
  let st := textCmd st (upper title) (pdfMargin / 2) st.yLeft
  { st with yLeft := st.yLeft + 5 }

/-- The contact block (lines 204-244). -/
def drawContactBlock (m : Metrics) (loc : Locale)
    (secs : SectionKey → Option (List Line)) (st : PdfState) : PdfState :=
  if ((secs CONTACT_INFORMATION).getD []).isEmpty then st
  else
    let content := (secs CONTACT_INFORMATION).getD []
    let st := leftTitleDraw (titleOf loc CONTACT_INFORMATION) st
    let st := setTextColor (setFontSize (setFontStyle st FontStyle.normal)
      (8.5 : ℚ)) bodyTextLeftCol
    let st := content.foldl
      (fun st line =>
        let wrapped := m.split st.fontStyle st.fontSize (contactLineText line)
          leftColContentWidth
        wrapped.foldl
          (fun st l =>
            let st := apnLeft st 4
            let st := textCmd st l (pdfMargin / 2) st.yLeft
            { st with yLeft := st.yLeft + (3.5 : ℚ) }) st) st
    { st with yLeft := st.yLeft + 5 }

/-- `drawLeftSection` (lines 246-271), at its default style arguments. -/
def drawLeftSection (m : Metrics) (loc : Locale) (resume : Line)
    (secs : SectionKey → Option (List Line)) (key : SectionKey)
    (st : PdfState) : PdfState :=
  if !((secs key).getD []).isEmpty ||
      (key == PROFESSIONAL_PROFILE && ((secs key).getD []).isEmpty &&
        containsSub (upper resume) (upper (titleOf loc key))) then
    let content := (secs key).getD []
    let title := titleOf loc key
    let st := leftTitleDraw title st
    let st := setTextColor (setFontSize (setFontStyle st FontStyle.normal)
      (8.5 : ℚ)) bodyTextLeftCol
    let st := content.foldl
      (fun st line =>
        let wrapped := m.split st.fontStyle st.fontSize line
          leftColContentWidth
        let st := wrapped.foldl
          (fun st l =>
            let st := apnLeft st ((3.5 : ℚ) + (0.5 : ℚ))
            let st := textCmd st l (pdfMargin / 2) st.yLeft
            { st with yLeft := st.yLeft + (3.5 : ℚ) }) st
        if key == LANGUAGES && line.contains ':' then
          { st with yLeft := st.yLeft + 1 }
        else st) st
    { st with yLeft := st.yLeft + 5 }
  else st

/-- The `textLines.forEach` pattern of the right column: print at
`rightColX`, then advance-and-check. -/
def rightLinesLoop : List Line → PdfState → PdfState
  | [], st => st
  | l :: rest, st =>
    let st := textCmd st l rightColX st.yRight
    let st := apnRightAt st (st.yRight + (4.5 : ℚ)) (4.5 : ℚ)
    rightLinesLoop rest st

/-- The `idx > 0` portion of the WORK_EXPERIENCE wrapped-text loops: break
to a new line, reset `currentX`, print, advance `currentX`. -/
def weWrapLoop (m : Metrics) : List Line → PdfState × ℚ → PdfState × ℚ
  | [], p => p
  | w :: rest, (st, _) =>
    let st := apnRightAt st (st.yRight + (4.5 : ℚ)) (4.5 : ℚ)
    let st := textCmd st w rightColX st.yRight
    let cx := rightColX + m.textWidth st.fontStyle st.fontSize w
    weWrapLoop m rest (st, cx)

/-- A wrapped-text run of the WORK_EXPERIENCE branch starting at `cx0`. -/
def weTextRun (m : Metrics) (st : PdfState) (ws : List Line) (cx0 : ℚ) :
    PdfState × ℚ :=
  match ws with
  | [] => (st, cx0)
  | w :: rest =>
    let st := textCmd st w cx0 st.yRight
    let cx := cx0 + m.textWidth st.fontStyle st.fontSize w
    weWrapLoop m rest (st, cx)

/-- `i > 0 ? 2 : 0`: the extra spacing requested before a non-first item. -/
def extraGap (hasPrev : Bool) : ℚ :=
  if hasPrev then 2 else 0

/-- The WORK_EXPERIENCE title branch (lines 320-374): bold
position-and-company run, optional inline location run, then one line
advance.  `hasPrev` is `i > 0`. -/
def weTitleBranchDraw (m : Metrics) (hasPrev : Bool) (line : Line)
    (st : PdfState) : PdfState :=
  let st := apnRightAt st st.yRight ((4.5 : ℚ) + extraGap hasPrev)
  let pc := parseTitleLine line
  let st := setFontSize (setFontStyle st FontStyle.bold) (10.5 : ℚ)
  let boldWrapped := m.split st.fontStyle st.fontSize pc.1 rightColWidth
  let p := weTextRun m st boldWrapped rightColX
  let st := p.1
  let cx := p.2
  let st :=
    if pc.2.isEmpty then st
    else
      let st := setFontSize (setFontStyle st FontStyle.normal) 10
      let spaceForLocation := rightColWidth - (cx - rightColX)
      let p2 :=
        if cx = rightColX ∨
            spaceForLocation <
              m.textWidth st.fontStyle st.fontSize [' '] + 5 then
          (apnRightAt st (st.yRight + (4.5 : ℚ)) (4.5 : ℚ), rightColX)
        else (st, cx)
      let st := p2.1
      let cx := p2.2
      let locText :=
        match pc.2 with
        | ',' :: _ => pc.2
        | _ => (", ").data ++ pc.2
      let locWrapped := m.split st.fontStyle st.fontSize locText
        (rightColWidth - (cx - rightColX))
      (weTextRun m st locWrapped cx).1
  { st with yRight := st.yRight + (4.5 : ℚ) }

/-- The EDUCATION title branch (lines 376-387). -/
def edTitleBranchDraw (m : Metrics) (hasPrev : Bool) (line : Line)
    (st : PdfState) : PdfState :=
  let st := apnRightAt st st.yRight ((4.5 : ℚ) + extraGap hasPrev)
  let st := setFontSize (setFontStyle st FontStyle.bold) (10.5 : ℚ)
  let textLines := m.split st.fontStyle st.fontSize line rightColWidth
  let st := rightLinesLoop textLines st
  let st := if textLines.isEmpty then st
    else { st with yRight := st.yRight - (4.5 : ℚ) }
  { st with yRight := st.yRight + (4.5 : ℚ) }

/-- The date-line branch (lines 389-402). -/
def dateBranchDraw (m : Metrics) (line : Line) (st : PdfState) : PdfState :=
  let st := apnRight st (4.5 : ℚ)
  let st := setTextColor (setFontSize (setFontStyle st FontStyle.italic) 9)
    (128, 128, 128)
  let textLines := m.split st.fontStyle st.fontSize line rightColWidth
  let st := rightLinesLoop textLines st
  let st := if textLines.isEmpty then st
    else { st with yRight := st.yRight - (4.5 : ℚ) }
  let st := { st with yRight := st.yRight + (4.5 : ℚ) }
  setTextColor st bodyTextRightCol

/-- The SKILLS sub-header branches (lines 404-418), identical for the
technical and soft headers. -/
def skillsHeaderBranchDraw (line : Line) (st : PdfState) : PdfState :=
  let st := apnRightAt st (st.yRight + 2) (4.5 : ℚ)
  let st := setFontSize (setFontStyle st FontStyle.bold) 10
  let st := textCmd st line rightColX st.yRight
  { st with yRight := st.yRight + (4.5 : ℚ) }

/-- The description branch (lines 419-431). -/
def descBranchDraw (m : Metrics) (line : Line) (st : PdfState) : PdfState :=
  let st := apnRight st (4.5 : ℚ)
  let st := setFontSize (setFontStyle st FontStyle.normal) (9.5 : ℚ)
  let textLines := m.split st.fontStyle st.fontSize line rightColWidth
  let st := rightLinesLoop textLines st
  let st := if textLines.isEmpty then st
    else { st with yRight := st.yRight - (4.5 : ℚ) }
  { st with yRight := st.yRight + (4.5 : ℚ) }

/-- The per-iteration style reset of the right-column loop (lines 310-312). -/
def rightPrelude (st : PdfState) : PdfState :=
  setFontStyle (setFontSize (setTextColor st bodyTextRightCol) 10)
    FontStyle.normal

/-- The right-column content loop (lines 301-432), one named branch per
source branch, threading `content[i-1]` and `isFirstInSubSection`. -/
def drawRightContentLoop (m : Metrics) (loc : Locale) (key : SectionKey) :
    List Line → Option Line → Bool → PdfState → PdfState
  | [], _, _, st => st
  | line :: rest, prev, isFirst, st =>
    let st := rightPrelude st
    let likelyTitle := isLikelyActualTitle loc prev isFirst
    let likelyDate := isLikelyDateLine line
    if key == WORK_EXPERIENCE && likelyTitle && !likelyDate then
      drawRightContentLoop m loc key rest (some line) false
        (weTitleBranchDraw m prev.isSome line st)
    else if key == EDUCATION && likelyTitle && !likelyDate then
      drawRightContentLoop m loc key rest (some line) false
        (edTitleBranchDraw m prev.isSome line st)
    else if likelyDate then
      drawRightContentLoop m loc key rest (some line) false
        (dateBranchDraw m line st)
    else if key == SKILLS && isSkillsTechHeader line then
      drawRightContentLoop m loc key rest (some line) false
        (skillsHeaderBranchDraw line st)
    else if key == SKILLS && isSkillsSoftHeader line then
      drawRightContentLoop m loc key rest (some line) false
        (skillsHeaderBranchDraw line st)
    else
      drawRightContentLoop m loc key rest (some line)
        (if (trim line).isEmpty then isFirst else true)
        (descBranchDraw m line st)

/-- The right-column section header: bold 14pt title plus the underline
rule (lines 287-297). -/
def rightTitleDraw (title : Line) (st : PdfState) : PdfState :=
  let st := apnRight st 10
  let st := setTextColor (setFontSize (setFontStyle st FontStyle.bold) 14)
    sectionTitleRightCol
  let st := textCmd st (upper title) rightColX st.yRight
  let st := { st with yRight := st.yRight + 1 }
  let st := setLineWidth (setDrawColor st (189, 195, 199)) (0.3 : ℚ)
  let st := ruleCmd st rightColX st.yRight (rightColX + rightColWidth)
    st.yRight
  { st with yRight := st.yRight + 6 }

/-- `drawRightSection` (lines 277-435). -/
def drawRightSection (m : Metrics) (loc : Locale) (resume : Line)
    (secs : SectionKey → Option (List Line)) (key : SectionKey)
    (st : PdfState) : PdfState :=
  if !((secs key).getD []).isEmpty ||
      (key == WORK_EXPERIENCE &&
        containsSub (upper resume) (upper (titleOf loc key))) ||
      (key == EDUCATION &&
        containsSub (upper resume) (upper (titleOf loc key))) ||
      (key == SKILLS &&
        containsSub (upper resume) (upper (titleOf loc key))) then
    let st := rightTitleDraw (titleOf loc key) st
    let st := drawRightContentLoop m loc key ((secs key).getD []) none true st
    { st with yRight := st.yRight + 5 }
  else st

/-- The whole layout run of `handleDownloadPdf` after its emptiness guard:
background, name, photo, contact, left column, right column. -/
def buildResumePdf (env : Env) (m : Metrics) (resume : Line) (loc : Locale)
    (photo : Option Line) : PdfState :=
  let st := initPdfState
  let st := drawLeftColumnBackground st
  let name := candidateFullNameOf resume
  let secs := sectionsOf loc resume
  let st := drawNameBlock m st name
  let st := drawPhotoBlock m st photo
  let st := drawContactBlock m loc secs st
  let st := drawLeftSection m loc resume secs PROFESSIONAL_PROFILE st
  let st := drawLeftSection m loc resume secs LANGUAGES st
  let st := drawLeftSection m loc resume secs INTERESTS st
  let st := drawRightSection m loc resume secs WORK_EXPERIENCE st
  let st := drawRightSection m loc resume secs EDUCATION st
  let st := drawRightSection m loc resume secs SKILLS st
  st

/-- `handleDownloadPdf` including the `if (!tailoredResume) return;` guard. -/
def handleDownloadPdf (env : Env) (m : Metrics) (resume : Line)
    (resumeLanguage : Line) (photo : Option Line) : Option PdfState :=
  if resume.isEmpty then none
  else some (buildResumePdf env m resume (localeOf resumeLanguage) photo)

/-! ## Command-trace accounting -/

/-- Is `c` a (background) rectangle on page `p`? -/
def isRectOn (p : ℕ) : Cmd → Bool
  | Cmd.rect q _ _ _ _ _ => q == p
  | _ => false

/-- Number of rectangle commands on page `p`. -/
def rectCount (cs : List Cmd) (p : ℕ) : ℕ :=
  (cs.filter (isRectOn p)).length

/-- Is `c` an image command? -/
def isImageCmd : Cmd → Bool
  | Cmd.image _ _ _ _ _ => true
  | _ => false

/-- Number of image commands. -/
def imgCount (cs : List Cmd) : ℕ :=
  (cs.filter isImageCmd).length

theorem rectCount_append (cs ds : List Cmd) (p : ℕ) :
    rectCount (cs ++ ds) p = rectCount cs p + rectCount ds p := by
  simp [rectCount, List.filter_append]

theorem imgCount_append (cs ds : List Cmd) :
    imgCount (cs ++ ds) = imgCount cs + imgCount ds := by
  simp [imgCount, List.filter_append]

theorem rectCount_singleton (c : Cmd) (p : ℕ) :
    rectCount [c] p = if isRectOn p c then 1 else 0 := by
  rw [rectCount, List.filter_singleton]
  cases h : isRectOn p c <;> simp [h]

theorem rectCount_single_rect (pg : ℕ) (x y w h : ℚ) (c : RGB) (p : ℕ) :
    rectCount [Cmd.rect pg x y w h c] p = if pg = p then 1 else 0 := by
  rw [rectCount_singleton]
  have : isRectOn p (Cmd.rect pg x y w h c) = (pg == p) := rfl
  rw [this]
  by_cases hp : pg = p
  · subst hp
    simp
  · simp [hp]

/-- How every engine operation relates a state to its successor: the page
only advances, exactly one background rectangle is emitted for each page
crossed, no image command is emitted, and previously emitted commands are
kept (in order, by `cmds`-append; membership is what the claims need). -/
structure LayoutRel (st st' : PdfState) : Prop where
  page_le : st.page ≤ st'.page
  rects : ∀ p, rectCount st'.cmds p =
    rectCount st.cmds p + (if st.page < p ∧ p ≤ st'.page then 1 else 0)
  imgs : imgCount st'.cmds = imgCount st.cmds
  grows : ∀ c ∈ st.cmds, c ∈ st'.cmds

theorem LayoutRel.rfl (st : PdfState) : LayoutRel st st := by
  refine ⟨le_refl _, ?_, Eq.refl _, fun c h => h⟩
  intro p
  have hni : ¬(st.page < p ∧ p ≤ st.page) := by omega
  rw [if_neg hni]
  omega

theorem LayoutRel.trans {a b c : PdfState} (hab : LayoutRel a b)
    (hbc : LayoutRel b c) : LayoutRel a c := by
  refine ⟨le_trans hab.page_le hbc.page_le, ?_, by rw [hbc.imgs, hab.imgs],
    fun x hx => hbc.grows x (hab.grows x hx)⟩
  intro p
  have h1 := hab.rects p
  have h2 := hbc.rects p
  have hle1 := hab.page_le
  have hle2 := hbc.page_le
  rw [h2, h1]
  split_ifs <;> omega

/-- Operations that touch neither `cmds` nor `page` are `LayoutRel`. -/
theorem rel_same (st st' : PdfState) (h1 : st'.cmds = st.cmds)
    (h2 : st'.page = st.page) : LayoutRel st st' := by
  refine ⟨le_of_eq h2.symm, ?_, by rw [h1], fun c hc => by rw [h1]; exact hc⟩
  intro p
  have hni : ¬(st.page < p ∧ p ≤ st'.page) := by omega
  rw [if_neg hni, h1]
  omega

theorem rel_emit_of (st : PdfState) (c : Cmd)
    (hrect : ∀ p, rectCount [c] p = 0) (himg : imgCount [c] = 0) :
    LayoutRel st (emit st c) := by
  refine ⟨le_refl _, ?_, ?_, ?_⟩
  · intro p
    have hni : ¬(st.page < p ∧ p ≤ (emit st c).page) := by
      simp only [emit]
      omega
    rw [if_neg hni]
    simp [emit, rectCount_append, hrect]
  · simp [emit, imgCount_append, himg]
  · intro x hx
    simp only [emit]
    exact List.mem_append_left _ hx

theorem rectCount_text_zero (pg : ℕ) (x y : ℚ) (s : Line) (f : FontStyle)
    (q : ℚ) (c : RGB) (p : ℕ) :
    rectCount [Cmd.text pg x y s f q c] p = 0 := rfl

theorem rectCount_rule_zero (pg : ℕ) (x1 y1 x2 y2 : ℚ) (c : RGB) (w : ℚ)
    (p : ℕ) : rectCount [Cmd.rule pg x1 y1 x2 y2 c w] p = 0 := rfl

theorem rectCount_image_zero (pg : ℕ) (x y w h : ℚ) (p : ℕ) :
    rectCount [Cmd.image pg x y w h] p = 0 := rfl

theorem imgCount_text_zero (pg : ℕ) (x y : ℚ) (s : Line) (f : FontStyle)
    (q : ℚ) (c : RGB) : imgCount [Cmd.text pg x y s f q c] = 0 := rfl

theorem imgCount_rule_zero (pg : ℕ) (x1 y1 x2 y2 : ℚ) (c : RGB) (w : ℚ) :
    imgCount [Cmd.rule pg x1 y1 x2 y2 c w] = 0 := rfl

theorem imgCount_rect_zero (pg : ℕ) (x y w h : ℚ) (c : RGB) :
    imgCount [Cmd.rect pg x y w h c] = 0 := rfl

theorem rel_textCmd (st : PdfState) (s : Line) (x y : ℚ) :
    LayoutRel st (textCmd st s x y) :=
  rel_emit_of st _ (rectCount_text_zero _ _ _ _ _ _ _)
    (imgCount_text_zero _ _ _ _ _ _ _)

theorem rel_ruleCmd (st : PdfState) (x1 y1 x2 y2 : ℚ) :
    LayoutRel st (ruleCmd st x1 y1 x2 y2) :=
  rel_emit_of st _ (rectCount_rule_zero _ _ _ _ _ _ _)
    (imgCount_rule_zero _ _ _ _ _ _ _)

theorem rel_updYLeft (st : PdfState) (q : ℚ) :
    LayoutRel st { st with yLeft := q } :=
  rel_same st _ (Eq.refl _) (Eq.refl _)

theorem rel_updYRight (st : PdfState) (q : ℚ) :
    LayoutRel st { st with yRight := q } :=
  rel_same st _ (Eq.refl _) (Eq.refl _)

/-- The three style setters used before a text run. -/
theorem rel_set3 (st : PdfState) (f : FontStyle) (q : ℚ) (c : RGB) :
    LayoutRel st (setTextColor (setFontSize (setFontStyle st f) q) c) :=
  rel_same st _ (Eq.refl _) (Eq.refl _)

theorem rel_set3' (st : PdfState) (c : RGB) (q : ℚ) (f : FontStyle) :
    LayoutRel st (setFontStyle (setFontSize (setTextColor st c) q) f) :=
  rel_same st _ (Eq.refl _) (Eq.refl _)

theorem rel_set2 (st : PdfState) (f : FontStyle) (q : ℚ) :
    LayoutRel st (setFontSize (setFontStyle st f) q) :=
  rel_same st _ (Eq.refl _) (Eq.refl _)

theorem rel_setTextColor (st : PdfState) (c : RGB) :
    LayoutRel st (setTextColor st c) :=
  rel_same st _ (Eq.refl _) (Eq.refl _)

theorem rel_setLineWidthDraw (st : PdfState) (c : RGB) (q : ℚ) :
    LayoutRel st (setLineWidth (setDrawColor st c) q) :=
  rel_same st _ (Eq.refl _) (Eq.refl _)

theorem rel_addPageIfNeeded (st : PdfState) (y h : ℚ) :
    LayoutRel st (addPageIfNeeded st y h).1 := by
  unfold addPageIfNeeded
  split
  · refine ⟨Nat.le_succ _, ?_, ?_, ?_⟩
    · intro p
      simp only [rectCmd, setFillColor, emit, rectCount_append,
        rectCount_single_rect]
      split_ifs <;> omega
    · simp [rectCmd, setFillColor, emit, imgCount_append, imgCount,
        List.filter, isImageCmd]
    · intro c hc
      simp only [rectCmd, setFillColor, emit]
      exact List.mem_append_left _ hc
  · exact LayoutRel.rfl st

theorem rel_apnLeft (st : PdfState) (h : ℚ) : LayoutRel st (apnLeft st h) :=
  (rel_addPageIfNeeded st st.yLeft h).trans
    (rel_same _ _ (Eq.refl _) (Eq.refl _))

theorem rel_apnRightAt (st : PdfState) (y h : ℚ) :
    LayoutRel st (apnRightAt st y h) :=
  (rel_addPageIfNeeded st y h).trans (rel_same _ _ (Eq.refl _) (Eq.refl _))

theorem rel_apnRight (st : PdfState) (h : ℚ) :
    LayoutRel st (apnRight st h) :=
  rel_apnRightAt st st.yRight h

theorem rel_foldl {β : Type} (g : PdfState → β → PdfState)
    (hg : ∀ st b, LayoutRel st (g st b)) (xs : List β) :
    ∀ st, LayoutRel st (xs.foldl g st) := by
  induction xs with
  | nil => intro st; exact LayoutRel.rfl st
  | cons x rest ih =>
    intro st
    rw [List.foldl_cons]
    exact (hg st x).trans (ih (g st x))

/-! ## Per-phase `LayoutRel` lemmas -/

theorem mem_of_rel {a b : PdfState} (h : LayoutRel a b) {c : Cmd}
    (hc : c ∈ a.cmds) : c ∈ b.cmds := h.grows c hc

theorem rel_rightLinesLoop (ls : List Line) :
    ∀ st, LayoutRel st (rightLinesLoop ls st) := by
  induction ls with
  | nil => intro st; exact LayoutRel.rfl st
  | cons l rest ih =>
    intro st
    rw [rightLinesLoop]
    exact (rel_textCmd _ _ _ _).trans
      ((rel_apnRightAt _ _ _).trans (ih _))

theorem rel_weWrapLoop (m : Metrics) (ws : List Line) :
    ∀ st cx, LayoutRel st (weWrapLoop m ws (st, cx)).1 := by
  induction ws with
  | nil => intro st cx; exact LayoutRel.rfl st
  | cons w rest ih =>
    intro st cx
    rw [weWrapLoop]
    exact (rel_apnRightAt _ _ _).trans
      ((rel_textCmd _ _ _ _).trans (ih _ _))

theorem rel_weTextRun (m : Metrics) (st : PdfState) (ws : List Line)
    (cx0 : ℚ) : LayoutRel st (weTextRun m st ws cx0).1 := by
  cases ws with
  | nil => exact LayoutRel.rfl st
  | cons w rest =>
    rw [weTextRun]
    exact (rel_textCmd _ _ _ _).trans (rel_weWrapLoop m rest _ _)

theorem rel_weTitleBranchDraw (m : Metrics) (hp : Bool) (line : Line)
    (st : PdfState) : LayoutRel st (weTitleBranchDraw m hp line st) := by
  unfold weTitleBranchDraw
  refine LayoutRel.trans ?_ (rel_updYRight _ _)
  split
  · exact (rel_apnRightAt _ _ _).trans
      ((rel_set2 _ _ _).trans (rel_weTextRun _ _ _ _))
  · refine LayoutRel.trans ?_ (rel_weTextRun _ _ _ _)
    split
    · exact (rel_apnRightAt _ _ _).trans ((rel_set2 _ _ _).trans
        ((rel_weTextRun _ _ _ _).trans ((rel_set2 _ _ _).trans
          (rel_apnRightAt _ _ _))))
    · exact (rel_apnRightAt _ _ _).trans ((rel_set2 _ _ _).trans
        ((rel_weTextRun _ _ _ _).trans (rel_set2 _ _ _)))


theorem rel_edTitleBranchDraw (m : Metrics) (hp : Bool) (line : Line)
    (st : PdfState) : LayoutRel st (edTitleBranchDraw m hp line st) := by
  unfold edTitleBranchDraw
  refine LayoutRel.trans ?_ (rel_updYRight _ _)
  split
  · exact (rel_apnRightAt _ _ _).trans
      ((rel_set2 _ _ _).trans (rel_rightLinesLoop _ _))
  · exact (rel_apnRightAt _ _ _).trans ((rel_set2 _ _ _).trans
      ((rel_rightLinesLoop _ _).trans (rel_updYRight _ _)))

theorem rel_dateBranchDraw (m : Metrics) (line : Line) (st : PdfState) :
    LayoutRel st (dateBranchDraw m line st) := by
  unfold dateBranchDraw
  refine LayoutRel.trans ?_ (rel_setTextColor _ _)
  refine LayoutRel.trans ?_ (rel_updYRight _ _)
  split
  · exact (rel_apnRight _ _).trans
      ((rel_set3 _ _ _ _).trans (rel_rightLinesLoop _ _))
  · exact (rel_apnRight _ _).trans ((rel_set3 _ _ _ _).trans
      ((rel_rightLinesLoop _ _).trans (rel_updYRight _ _)))

theorem rel_skillsHeaderBranchDraw (line : Line) (st : PdfState) :
    LayoutRel st (skillsHeaderBranchDraw line st) := by
  unfold skillsHeaderBranchDraw
  exact (rel_apnRightAt st _ _).trans ((rel_set2 _ _ _).trans
    ((rel_textCmd _ _ _ _).trans (rel_updYRight _ _)))

theorem rel_descBranchDraw (m : Metrics) (line : Line) (st : PdfState) :
    LayoutRel st (descBranchDraw m line st) := by
  unfold descBranchDraw
  refine LayoutRel.trans ?_ (rel_updYRight _ _)
  split
  · exact (rel_apnRight _ _).trans
      ((rel_set2 _ _ _).trans (rel_rightLinesLoop _ _))
  · exact (rel_apnRight _ _).trans ((rel_set2 _ _ _).trans
      ((rel_rightLinesLoop _ _).trans (rel_updYRight _ _)))

theorem rel_rightPrelude (st : PdfState) : LayoutRel st (rightPrelude st) :=
  rel_same st _ (Eq.refl _) (Eq.refl _)

theorem rel_drawRightContentLoop (m : Metrics) (loc : Locale)
    (key : SectionKey) (content : List Line) :
    ∀ prev isFirst st,
      LayoutRel st (drawRightContentLoop m loc key content prev isFirst st) := by
  induction content with
  | nil => intro prev isFirst st; exact LayoutRel.rfl st
  | cons line rest ih =>
    intro prev isFirst st
    rw [drawRightContentLoop]
    split
    · exact (rel_rightPrelude st).trans
        ((rel_weTitleBranchDraw m _ _ _).trans (ih _ _ _))
    · split
      · exact (rel_rightPrelude st).trans
          ((rel_edTitleBranchDraw m _ _ _).trans (ih _ _ _))
      · split
        · exact (rel_rightPrelude st).trans
            ((rel_dateBranchDraw m _ _).trans (ih _ _ _))
        · split
          · exact (rel_rightPrelude st).trans
              ((rel_skillsHeaderBranchDraw _ _).trans (ih _ _ _))
          · split
            · exact (rel_rightPrelude st).trans
                ((rel_skillsHeaderBranchDraw _ _).trans (ih _ _ _))
            · exact (rel_rightPrelude st).trans
                ((rel_descBranchDraw m _ _).trans (ih _ _ _))

theorem rel_leftTitleDraw (title : Line) (st : PdfState) :
    LayoutRel st (leftTitleDraw title st) := by
  unfold leftTitleDraw
  exact (rel_apnLeft st 8).trans ((rel_set3 _ _ _ _).trans
    ((rel_textCmd _ _ _ _).trans (rel_updYLeft _ _)))

theorem rel_rightTitleDraw (title : Line) (st : PdfState) :
    LayoutRel st (rightTitleDraw title st) := by
  unfold rightTitleDraw
  exact (rel_apnRight st 10).trans ((rel_set3 _ _ _ _).trans
    ((rel_textCmd _ _ _ _).trans ((rel_updYRight _ _).trans
      ((rel_setLineWidthDraw _ _ _).trans ((rel_ruleCmd _ _ _ _ _).trans
        (rel_updYRight _ _))))))

theorem rel_drawNameBlock (m : Metrics) (name : Line) (st : PdfState) :
    LayoutRel st (drawNameBlock m st name) := by
  unfold drawNameBlock
  refine LayoutRel.trans ?_ (rel_updYLeft _ _)
  refine LayoutRel.trans ?_ (rel_foldl _ ?_ _ _)
  · exact (rel_apnLeft _ _).trans (rel_set3 _ _ _ _)
  · intro st' nl
    exact (rel_apnLeft st' 8).trans
      ((rel_textCmd _ _ _ _).trans (rel_updYLeft _ _))

theorem rel_drawContactBlock (m : Metrics) (loc : Locale)
    (secs : SectionKey → Option (List Line)) (st : PdfState) :
    LayoutRel st (drawContactBlock m loc secs st) := by
  unfold drawContactBlock
  split
  · exact LayoutRel.rfl st
  · refine LayoutRel.trans ?_ (rel_updYLeft _ _)
    refine LayoutRel.trans ?_ (rel_foldl _ ?_ _ _)
    · exact (rel_leftTitleDraw _ st).trans (rel_set3 _ _ _ _)
    · intro st' line
      refine rel_foldl _ ?_ _ _
      intro st'' l
      exact (rel_apnLeft st'' 4).trans
        ((rel_textCmd _ _ _ _).trans (rel_updYLeft _ _))

theorem rel_drawLeftSection (m : Metrics) (loc : Locale) (resume : Line)
    (secs : SectionKey → Option (List Line)) (key : SectionKey)
    (st : PdfState) : LayoutRel st (drawLeftSection m loc resume secs key st) := by
  unfold drawLeftSection
  split
  · refine LayoutRel.trans ?_ (rel_updYLeft _ _)
    refine LayoutRel.trans ?_ (rel_foldl _ ?_ _ _)
    · exact (rel_leftTitleDraw _ st).trans (rel_set3 _ _ _ _)
    · intro st' line
      split
      · refine LayoutRel.trans ?_ (rel_updYLeft _ _)
        refine rel_foldl _ ?_ _ st'
        intro st'' l
        exact (rel_apnLeft st'' _).trans
          ((rel_textCmd _ _ _ _).trans (rel_updYLeft _ _))
      · refine rel_foldl _ ?_ _ st'
        intro st'' l
        exact (rel_apnLeft st'' _).trans
          ((rel_textCmd _ _ _ _).trans (rel_updYLeft _ _))
  · exact LayoutRel.rfl st

theorem rel_drawRightSection (m : Metrics) (loc : Locale) (resume : Line)
    (secs : SectionKey → Option (List Line)) (key : SectionKey)
    (st : PdfState) : LayoutRel st (drawRightSection m loc resume secs key st) := by
  unfold drawRightSection
  split
  · exact (rel_rightTitleDraw _ st).trans
      ((rel_drawRightContentLoop m loc key _ _ _ _).trans (rel_updYRight _ _))
  · exact LayoutRel.rfl st

/-- The photo block is `LayoutRel` whenever it does not actually embed an
image: either there is no photo, or the data URI does not parse to a
supported type, or the decoder rejects the bytes. -/
theorem rel_drawPhotoBlock_skip (m : Metrics) (photo : Option Line)
    (st : PdfState)
    (h : ∀ uri, photo = some uri →
      parseImageType uri = none ∨ m.decodes uri = false) :
    LayoutRel st (drawPhotoBlock m st photo) := by
  cases photo with
  | none => exact LayoutRel.rfl st
  | some uri =>
    simp only [drawPhotoBlock]
    rcases h uri rfl with hp | hd
    · rw [hp]
      exact rel_apnLeft st 40
    · cases hpt : parseImageType uri with
      | none => exact rel_apnLeft st 40
      | some ty =>
        rw [hd]
        simp only [Bool.false_eq_true, if_false]
        exact rel_apnLeft st 40

/-! ## Claim C3: synchronized page breaks, one background rect per page -/

/-- The background-rectangle invariant: every page from 1 to the current
page carries exactly one background rectangle, and no other page carries
any. -/
def goodRects (st : PdfState) : Prop :=
  1 ≤ st.page ∧
  ∀ p, rectCount st.cmds p = if 1 ≤ p ∧ p ≤ st.page then 1 else 0

theorem goodRects_of_rel {a b : PdfState} (h : LayoutRel a b)
    (ha : goodRects a) : goodRects b := by
  obtain ⟨h1, h2⟩ := ha
  refine ⟨le_trans h1 h.page_le, ?_⟩
  intro p
  rw [h.rects p, h2 p]
  have := h.page_le
  split_ifs <;> omega

theorem goodRects_of_cmds_page (st st' : PdfState)
    (hp : st'.page = st.page)
    (hc : ∀ p, rectCount st'.cmds p = rectCount st.cmds p)
    (hg : goodRects st) : goodRects st' := by
  obtain ⟨h1, h2⟩ := hg
  refine ⟨hp ▸ h1, ?_⟩
  intro p
  rw [hc p, hp, h2 p]

theorem goodRects_drawPhotoBlock (m : Metrics) (photo : Option Line)
    (st : PdfState) (hg : goodRects st) :
    goodRects (drawPhotoBlock m st photo) := by
  cases photo with
  | none => exact hg
  | some uri =>
    simp only [drawPhotoBlock]
    cases parseImageType uri with
    | none => exact goodRects_of_rel (rel_apnLeft st 40) hg
    | some ty =>
      by_cases hd : m.decodes uri = true
      · rw [if_pos hd]
        refine goodRects_of_cmds_page
          (imageCmd (apnLeft st 40) ((leftColWidth - 35) / 2)
            (apnLeft st 40).yLeft 35 35) _ rfl (fun _ => rfl) ?_
        refine goodRects_of_cmds_page (apnLeft st 40) _ rfl ?_
          (goodRects_of_rel (rel_apnLeft st 40) hg)
        intro p
        simp [imageCmd, emit, rectCount_append, rectCount_image_zero]
      · rw [if_neg hd]
        exact goodRects_of_rel (rel_apnLeft st 40) hg

theorem goodRects_background : goodRects (drawLeftColumnBackground initPdfState) := by
  constructor
  · decide
  · intro p
    show rectCount [Cmd.rect 1 0 0 leftColWidth pageHeight leftColBGColor] p =
      if 1 ≤ p ∧ p ≤ 1 then 1 else 0
    rw [rectCount_single_rect]
    split_ifs <;> omega

theorem goodRects_buildResumePdf (env : Env) (m : Metrics) (resume : Line)
    (loc : Locale) (photo : Option Line) :
    goodRects (buildResumePdf env m resume loc photo) := by
  unfold buildResumePdf
  refine goodRects_of_rel (rel_drawRightSection _ _ _ _ _ _) ?_
  refine goodRects_of_rel (rel_drawRightSection _ _ _ _ _ _) ?_
  refine goodRects_of_rel (rel_drawRightSection _ _ _ _ _ _) ?_
  refine goodRects_of_rel (rel_drawLeftSection _ _ _ _ _ _) ?_
  refine goodRects_of_rel (rel_drawLeftSection _ _ _ _ _ _) ?_
  refine goodRects_of_rel (rel_drawLeftSection _ _ _ _ _ _) ?_
  refine goodRects_of_rel (rel_drawContactBlock _ _ _ _) ?_
  refine goodRects_drawPhotoBlock _ _ _ ?_
  refine goodRects_of_rel (rel_drawNameBlock _ _ _) ?_
  exact goodRects_background

/-- C3: (1) whenever the needed height would cross `pageHeight - margin`,
`addPageIfNeeded` performs a synchronized break — it advances the page,
resets BOTH column cursors to the top margin, appends exactly the
left-column background rectangle for the new page, and returns the top
margin; (2) in every complete engine run the background rectangle appears
exactly once on every emitted page and on no other page. -/
theorem c3_synchronized_breaks :
    (∀ (st : PdfState) (y h : ℚ), y + h > pageHeight - pdfMargin →
      (addPageIfNeeded st y h).1.page = st.page + 1 ∧
      (addPageIfNeeded st y h).1.yLeft = pdfMargin ∧
      (addPageIfNeeded st y h).1.yRight = pdfMargin ∧
      (addPageIfNeeded st y h).1.cmds = st.cmds ++
        [Cmd.rect (st.page + 1) 0 0 leftColWidth pageHeight leftColBGColor] ∧
      (addPageIfNeeded st y h).2 = pdfMargin) ∧
    (∀ (env : Env) (m : Metrics) (resume : Line) (loc : Locale)
        (photo : Option Line),
      goodRects (buildResumePdf env m resume loc photo)) := by
  constructor
  · intro st y h hy
    unfold addPageIfNeeded
    rw [if_pos hy]
    exact ⟨rfl, rfl, rfl, rfl, rfl⟩
  · intro env m resume loc photo
    exact goodRects_buildResumePdf env m resume loc photo

/-- A concrete, fully determined metrics collaborator used to witness the
layout theorems: wrapping never splits, text width is 0, no image decodes. -/
def sampleMetrics : Metrics :=
  ⟨fun _ _ s _ => [s], fun _ _ _ => 0, fun _ => false⟩

/-- A concrete environment of effect sources for the witnesses. -/
def sampleEnv : Env :=
  ⟨fun _ => 0, 0, fun l => l, fun l => l⟩

/-- C3, witness: the synchronized-break theorem applied at a concrete
overflowing cursor and a concrete engine run. -/
theorem c3_synchronized_breaks_witness :
    (addPageIfNeeded initPdfState 280 10).1.page = initPdfState.page + 1 ∧
    (addPageIfNeeded initPdfState 280 10).1.yLeft = pdfMargin ∧
    (addPageIfNeeded initPdfState 280 10).1.yRight = pdfMargin ∧
    (addPageIfNeeded initPdfState 280 10).2 = pdfMargin ∧
    1 ≤ (buildResumePdf sampleEnv sampleMetrics
        (("John Doe\nSKILLS: Java").data) Locale.en none).page := by
  have h1 := c3_synchronized_breaks.1 initPdfState 280 10
    (by norm_num [pageHeight, pdfMargin])
  have h2 := (c3_synchronized_breaks.2 sampleEnv sampleMetrics
    (("John Doe\nSKILLS: Java").data) Locale.en none).1
  exact ⟨h1.1, h1.2.1, h1.2.2.1, h1.2.2.2.2, h2⟩

/-! ## Claim C6: a photo that fails to decode is skipped, everything else
is still drawn -/

theorem leftTitleDraw_text_mem (title : Line) (st : PdfState) :
    ∃ pg x y f q c, Cmd.text pg x y (upper title) f q c ∈
      (leftTitleDraw title st).cmds := by
  unfold leftTitleDraw
  exact ⟨_, _, _, _, _, _, mem_of_rel (rel_updYLeft _ _)
    (List.mem_append_right _ (List.mem_singleton_self _))⟩

theorem rightTitleDraw_text_mem (title : Line) (st : PdfState) :
    ∃ pg x y f q c, Cmd.text pg x y (upper title) f q c ∈
      (rightTitleDraw title st).cmds := by
  unfold rightTitleDraw
  exact ⟨_, _, _, _, _, _,
    mem_of_rel ((rel_updYRight _ _).trans ((rel_setLineWidthDraw _ _ _).trans
      ((rel_ruleCmd _ _ _ _ _).trans (rel_updYRight _ _))))
      (List.mem_append_right _ (List.mem_singleton_self _))⟩

theorem rightTitleDraw_rule_mem (title : Line) (st : PdfState) :
    ∃ pg y1, Cmd.rule pg rightColX y1 (rightColX + rightColWidth) y1
      (189, 195, 199) (0.3 : ℚ) ∈ (rightTitleDraw title st).cmds := by
  unfold rightTitleDraw
  exact ⟨_, _, mem_of_rel (rel_updYRight _ _)
    (List.mem_append_right _ (List.mem_singleton_self _))⟩

theorem drawContactBlock_title_mem (m : Metrics) (loc : Locale)
    (secs : SectionKey → Option (List Line)) (st : PdfState)
    (h : ((secs CONTACT_INFORMATION).getD []).isEmpty = false) :
    ∃ pg x y f q c,
      Cmd.text pg x y (upper (titleOf loc CONTACT_INFORMATION)) f q c ∈
        (drawContactBlock m loc secs st).cmds := by
  unfold drawContactBlock
  rw [if_neg (by simp [h])]
  obtain ⟨pg, x, y, f, q, c, hm⟩ :=
    leftTitleDraw_text_mem (titleOf loc CONTACT_INFORMATION) st
  refine ⟨pg, x, y, f, q, c, ?_⟩
  refine mem_of_rel ((rel_set3 _ _ _ _).trans
    ((rel_foldl _ ?_ _ _).trans (rel_updYLeft _ _))) hm
  intro st' line
  refine rel_foldl _ ?_ _ _
  intro st'' l
  exact (rel_apnLeft st'' 4).trans
    ((rel_textCmd _ _ _ _).trans (rel_updYLeft _ _))

theorem drawLeftSection_title_mem (m : Metrics) (loc : Locale)
    (resume : Line) (secs : SectionKey → Option (List Line))
    (key : SectionKey) (st : PdfState)
    (h : (!((secs key).getD []).isEmpty ||
      (key == PROFESSIONAL_PROFILE && ((secs key).getD []).isEmpty &&
        containsSub (upper resume) (upper (titleOf loc key)))) = true) :
    ∃ pg x y f q c, Cmd.text pg x y (upper (titleOf loc key)) f q c ∈
      (drawLeftSection m loc resume secs key st).cmds := by
  unfold drawLeftSection
  rw [if_pos h]
  obtain ⟨pg, x, y, f, q, c, hm⟩ :=
    leftTitleDraw_text_mem (titleOf loc key) st
  refine ⟨pg, x, y, f, q, c, ?_⟩
  refine mem_of_rel ((rel_set3 _ _ _ _).trans
    ((rel_foldl _ ?_ _ _).trans (rel_updYLeft _ _))) hm
  intro st' line
  split
  · refine LayoutRel.trans ?_ (rel_updYLeft _ _)
    refine rel_foldl _ ?_ _ st'
    intro st'' l
    exact (rel_apnLeft st'' _).trans
      ((rel_textCmd _ _ _ _).trans (rel_updYLeft _ _))
  · refine rel_foldl _ ?_ _ st'
    intro st'' l
    exact (rel_apnLeft st'' _).trans
      ((rel_textCmd _ _ _ _).trans (rel_updYLeft _ _))

theorem drawRightSection_header_mem (m : Metrics) (loc : Locale)
    (resume : Line) (secs : SectionKey → Option (List Line))
    (key : SectionKey) (st : PdfState)
    (h : (!((secs key).getD []).isEmpty ||
      (key == WORK_EXPERIENCE &&
        containsSub (upper resume) (upper (titleOf loc key))) ||
      (key == EDUCATION &&
        containsSub (upper resume) (upper (titleOf loc key))) ||
      (key == SKILLS &&
        containsSub (upper resume) (upper (titleOf loc key)))) = true) :
    (∃ pg x y f q c, Cmd.text pg x y (upper (titleOf loc key)) f q c ∈
      (drawRightSection m loc resume secs key st).cmds) ∧
    (∃ pg y1, Cmd.rule pg rightColX y1 (rightColX + rightColWidth) y1
      (189, 195, 199) (0.3 : ℚ) ∈
        (drawRightSection m loc resume secs key st).cmds) := by
  unfold drawRightSection
  rw [if_pos h]
  constructor
  · obtain ⟨pg, x, y, f, q, c, hm⟩ :=
      rightTitleDraw_text_mem (titleOf loc key) st
    exact ⟨pg, x, y, f, q, c,
      mem_of_rel ((rel_drawRightContentLoop _ _ _ _ _ _ _).trans
        (rel_updYRight _ _)) hm⟩
  · obtain ⟨pg, y1, hm⟩ := rightTitleDraw_rule_mem (titleOf loc key) st
    exact ⟨pg, y1,
      mem_of_rel ((rel_drawRightContentLoop _ _ _ _ _ _ _).trans
        (rel_updYRight _ _)) hm⟩

/-- The photo fails to embed: either the data URI does not parse to a
supported PNG/JPEG/JPG type, or jsPDF's decoder rejects the bytes. -/
def photoFails (m : Metrics) (uri : Line) : Prop :=
  parseImageType uri = none ∨ m.decodes uri = false

/-- C6: when the supplied photo fails to decode as PNG or JPEG, the engine
completes the layout with no image command in the output, and every section
the segmenter populated still contributes its header text command. -/
theorem c6_photo_decode_failure (env : Env) (m : Metrics) (resume : Line)
    (loc : Locale) (uri : Line) (hfail : photoFails m uri) :
    imgCount (buildResumePdf env m resume loc (some uri)).cmds = 0 ∧
    ∀ k, ((sectionsOf loc resume k).getD []).isEmpty = false →
      ∃ pg x y f q c, Cmd.text pg x y (upper (titleOf loc k)) f q c ∈
        (buildResumePdf env m resume loc (some uri)).cmds := by
  have hskip : ∀ u, (some uri : Option Line) = some u →
      parseImageType u = none ∨ m.decodes u = false := by
    intro u hu
    cases hu
    exact hfail
  constructor
  · have hrel : LayoutRel (drawLeftColumnBackground initPdfState)
        (buildResumePdf env m resume loc (some uri)) := by
      unfold buildResumePdf
      exact (rel_drawNameBlock _ _ _).trans
        ((rel_drawPhotoBlock_skip _ _ _ hskip).trans
          ((rel_drawContactBlock _ _ _ _).trans
            ((rel_drawLeftSection _ _ _ _ _ _).trans
              ((rel_drawLeftSection _ _ _ _ _ _).trans
                ((rel_drawLeftSection _ _ _ _ _ _).trans
                  ((rel_drawRightSection _ _ _ _ _ _).trans
                    ((rel_drawRightSection _ _ _ _ _ _).trans
                      (rel_drawRightSection _ _ _ _ _ _))))))))
    rw [hrel.imgs]
    rfl
  · intro k hk
    unfold buildResumePdf
    set st0 := drawLeftColumnBackground initPdfState with hst0
    set st1 := drawNameBlock m st0 (candidateFullNameOf resume) with hst1
    set st2 := drawPhotoBlock m st1 (some uri) with hst2
    set st3 := drawContactBlock m loc (sectionsOf loc resume) st2 with hst3
    set st4 := drawLeftSection m loc resume (sectionsOf loc resume)
      PROFESSIONAL_PROFILE st3 with hst4
    set st5 := drawLeftSection m loc resume (sectionsOf loc resume)
      LANGUAGES st4 with hst5
    set st6 := drawLeftSection m loc resume (sectionsOf loc resume)
      INTERESTS st5 with hst6
    set st7 := drawRightSection m loc resume (sectionsOf loc resume)
      WORK_EXPERIENCE st6 with hst7
    set st8 := drawRightSection m loc resume (sectionsOf loc resume)
      EDUCATION st7 with hst8
    cases k with
    | CONTACT_INFORMATION =>
      obtain ⟨pg, x, y, f, q, c, hm⟩ :=
        drawContactBlock_title_mem m loc (sectionsOf loc resume) st2 hk
      exact ⟨pg, x, y, f, q, c,
        mem_of_rel ((rel_drawLeftSection _ _ _ _ _ _).trans
          ((rel_drawLeftSection _ _ _ _ _ _).trans
            ((rel_drawLeftSection _ _ _ _ _ _).trans
              ((rel_drawRightSection _ _ _ _ _ _).trans
                ((rel_drawRightSection _ _ _ _ _ _).trans
                  (rel_drawRightSection _ _ _ _ _ _)))))) hm⟩
    | PROFESSIONAL_PROFILE =>
      obtain ⟨pg, x, y, f, q, c, hm⟩ :=
        drawLeftSection_title_mem m loc resume (sectionsOf loc resume)
          PROFESSIONAL_PROFILE st3 (by simp [hk])
      exact ⟨pg, x, y, f, q, c,
        mem_of_rel ((rel_drawLeftSection _ _ _ _ _ _).trans
          ((rel_drawLeftSection _ _ _ _ _ _).trans
            ((rel_drawRightSection _ _ _ _ _ _).trans
              ((rel_drawRightSection _ _ _ _ _ _).trans
                (rel_drawRightSection _ _ _ _ _ _))))) hm⟩
    | LANGUAGES =>
      obtain ⟨pg, x, y, f, q, c, hm⟩ :=
        drawLeftSection_title_mem m loc resume (sectionsOf loc resume)
          LANGUAGES st4 (by simp [hk])
      exact ⟨pg, x, y, f, q, c,
        mem_of_rel ((rel_drawLeftSection _ _ _ _ _ _).trans
          ((rel_drawRightSection _ _ _ _ _ _).trans
            ((rel_drawRightSection _ _ _ _ _ _).trans
              (rel_drawRightSection _ _ _ _ _ _)))) hm⟩
    | INTERESTS =>
      obtain ⟨pg, x, y, f, q, c, hm⟩ :=
        drawLeftSection_title_mem m loc resume (sectionsOf loc resume)
          INTERESTS st5 (by simp [hk])
      exact ⟨pg, x, y, f, q, c,
        mem_of_rel ((rel_drawRightSection _ _ _ _ _ _).trans
          ((rel_drawRightSection _ _ _ _ _ _).trans
            (rel_drawRightSection _ _ _ _ _ _))) hm⟩
    | WORK_EXPERIENCE =>
      obtain ⟨pg, x, y, f, q, c, hm⟩ :=
        (drawRightSection_header_mem m loc resume (sectionsOf loc resume)
          WORK_EXPERIENCE st6 (by simp [hk])).1
      exact ⟨pg, x, y, f, q, c,
        mem_of_rel ((rel_drawRightSection _ _ _ _ _ _).trans
          (rel_drawRightSection _ _ _ _ _ _)) hm⟩
    | EDUCATION =>
      obtain ⟨pg, x, y, f, q, c, hm⟩ :=
        (drawRightSection_header_mem m loc resume (sectionsOf loc resume)
          EDUCATION st7 (by simp [hk])).1
      exact ⟨pg, x, y, f, q, c,
        mem_of_rel (rel_drawRightSection _ _ _ _ _ _) hm⟩
    | SKILLS =>
      exact (drawRightSection_header_mem m loc resume (sectionsOf loc resume)
        SKILLS st8 (by simp [hk])).1

/-- C6, witness: a data URI with an unsupported type on a résumé with a
populated SKILLS section. -/
theorem c6_photo_decode_failure_witness :
    imgCount (buildResumePdf sampleEnv sampleMetrics
      (("John Doe\nSKILLS: Java").data) Locale.en
      (some (("data:text/plain;base64,Zm9v").data))).cmds = 0 := by
  exact (c6_photo_decode_failure sampleEnv sampleMetrics
    (("John Doe\nSKILLS: Java").data) Locale.en
    (("data:text/plain;base64,Zm9v").data) (Or.inl (by decide))).1

/-! ## Claim C9: header-emission policy per column -/

/-- C9: (1) for the right-column keys, the section header text and its
underline rule are emitted whenever the localized title occurs
case-insensitively anywhere in the raw résumé text, even with zero content
lines; (2) the non-PROFILE left-column sections are skipped entirely (state
unchanged) when they have no content, and (3) so is the contact block. -/
theorem c9_section_header_policy (m : Metrics) (loc : Locale) (resume : Line)
    (secs : SectionKey → Option (List Line)) :
    (∀ key, (key = WORK_EXPERIENCE ∨ key = EDUCATION ∨ key = SKILLS) →
      containsSub (upper resume) (upper (titleOf loc key)) = true →
      ∀ st, (∃ pg x y f q c,
          Cmd.text pg x y (upper (titleOf loc key)) f q c ∈
            (drawRightSection m loc resume secs key st).cmds) ∧
        (∃ pg y1, Cmd.rule pg rightColX y1 (rightColX + rightColWidth) y1
          (189, 195, 199) (0.3 : ℚ) ∈
            (drawRightSection m loc resume secs key st).cmds)) ∧
    (∀ key, (key = LANGUAGES ∨ key = INTERESTS) →
      (secs key).getD [] = [] →
      ∀ st, drawLeftSection m loc resume secs key st = st) ∧
    ((secs CONTACT_INFORMATION).getD [] = [] →
      ∀ st, drawContactBlock m loc secs st = st) := by
  refine ⟨?_, ?_, ?_⟩
  · intro key hkey hc st
    refine drawRightSection_header_mem m loc resume secs key st ?_
    rcases hkey with rfl | rfl | rfl <;> simp [hc]
  · intro key hkey h st
    rcases hkey with rfl | rfl <;>
      (unfold drawLeftSection; rw [if_neg (by simp [h])])
  · intro h st
    unfold drawContactBlock
    rw [if_pos (by simp [h])]

/-- C9, witness: with the English WORK EXPERIENCE title present in the raw
text, the right section draws its header from empty content, while empty
LANGUAGES and CONTACT sections leave the state untouched. -/
theorem c9_section_header_policy_witness :
    (∃ pg x y f q c,
      Cmd.text pg x y (upper (titleOf Locale.en WORK_EXPERIENCE)) f q c ∈
        (drawRightSection sampleMetrics Locale.en
          (("xx WORK EXPERIENCE yy").data) (fun _ => none) WORK_EXPERIENCE
          initPdfState).cmds) ∧
    drawLeftSection sampleMetrics Locale.en (("xx WORK EXPERIENCE yy").data)
      (fun _ => none) LANGUAGES initPdfState = initPdfState ∧
    drawContactBlock sampleMetrics Locale.en (fun _ => none) initPdfState =
      initPdfState := by
  have h := c9_section_header_policy sampleMetrics Locale.en
    (("xx WORK EXPERIENCE yy").data) (fun _ => none)
  exact ⟨(h.1 WORK_EXPERIENCE (Or.inl rfl) (by decide) initPdfState).1,
    h.2.1 LANGUAGES (Or.inl rfl) rfl initPdfState,
    h.2.2 rfl initPdfState⟩

/-! ## Claim C10: whitespace-only input still lays out with the fallback
name -/

theorem trim_all_ws (l : Line) (h : ∀ c ∈ l, isWsChar c = true) :
    trim l = [] := by
  unfold trim
  have h1 : l.dropWhile isWsChar = [] := List.dropWhile_eq_nil_iff.2 h
  rw [h1]
  rfl

theorem resumeLinesOf_ws (resume : Line)
    (h : ∀ c ∈ resume, isWsChar c = true) : resumeLinesOf resume = [] := by
  unfold resumeLinesOf
  refine List.filter_eq_nil_iff.2 ?_
  intro a ha
  obtain ⟨p, hp, rfl⟩ := List.mem_map.1 ha
  have htr : trim p = [] :=
    trim_all_ws p (fun c hc => h c (splitOnChar_mem '\n' resume p hp c hc))
  simp [htr]

/-- The name-block text command is emitted whenever the metrics wrap the
uppercased name to a single line. -/
theorem drawNameBlock_text_mem (m : Metrics) (st : PdfState) (name : Line)
    (hs : m.split FontStyle.bold 18 (upper name) (leftColContentWidth - 5) =
      [upper name]) :
    ∃ pg x y f q c, Cmd.text pg x y (upper name) f q c ∈
      (drawNameBlock m st name).cmds := by
  simp only [drawNameBlock]
  have hsplit : m.split
      (setTextColor (setFontSize (setFontStyle (apnLeft st 0)
        FontStyle.bold) 18) nameColor).fontStyle
      (setTextColor (setFontSize (setFontStyle (apnLeft st 0)
        FontStyle.bold) 18) nameColor).fontSize
      (upper name) (leftColContentWidth - 5) = [upper name] := hs
  rw [hsplit]
  simp only [List.foldl_cons, List.foldl_nil]
  exact ⟨_, _, _, _, _, _,
    List.mem_append_right _ (List.mem_singleton_self _)⟩

/-- C10: for a non-empty input consisting only of whitespace, the engine
still runs (the emptiness guard passes), the candidate name falls back to
the literal `"Candidate Name"`, and the produced page set carries the
left-column background rectangle of page 1 and the fallback name header
(when the metrics wrap the fallback name to one line). -/
theorem c10_whitespace_input (env : Env) (m : Metrics)
    (resumeLanguage resume : Line)
    (h1 : resume ≠ [])
    (h2 : ∀ c ∈ resume, isWsChar c = true)
    (h3 : m.split FontStyle.bold 18 (("CANDIDATE NAME").data)
      (leftColContentWidth - 5) = [("CANDIDATE NAME").data]) :
    candidateFullNameOf resume = ("Candidate Name").data ∧
    ∃ st, handleDownloadPdf env m resume resumeLanguage none = some st ∧
      Cmd.rect 1 0 0 leftColWidth pageHeight leftColBGColor ∈ st.cmds ∧
      ∃ pg x y f q c,
        Cmd.text pg x y (("CANDIDATE NAME").data) f q c ∈ st.cmds := by
  have hrl : resumeLinesOf resume = [] := resumeLinesOf_ws resume h2
  have hname : candidateFullNameOf resume = ("Candidate Name").data := by
    unfold candidateFullNameOf
    rw [hrl]
  have hupper : upper (("Candidate Name").data) = ("CANDIDATE NAME").data := by
    decide
  refine ⟨hname,
    buildResumePdf env m resume (localeOf resumeLanguage) none, ?_, ?_, ?_⟩
  · unfold handleDownloadPdf
    rw [if_neg ?_]
    cases resume with
    | nil => exact absurd rfl h1
    | cons a t => simp
  · have hm : Cmd.rect 1 0 0 leftColWidth pageHeight leftColBGColor ∈
        (drawLeftColumnBackground initPdfState).cmds :=
      List.mem_append_right _ (List.mem_singleton_self _)
    have hrel : LayoutRel (drawLeftColumnBackground initPdfState)
        (buildResumePdf env m resume (localeOf resumeLanguage) none) := by
      unfold buildResumePdf
      exact (rel_drawNameBlock _ _ _).trans
        ((rel_drawPhotoBlock_skip _ _ _ (fun u hu => Option.noConfusion hu)).trans
          ((rel_drawContactBlock _ _ _ _).trans
            ((rel_drawLeftSection _ _ _ _ _ _).trans
              ((rel_drawLeftSection _ _ _ _ _ _).trans
                ((rel_drawLeftSection _ _ _ _ _ _).trans
                  ((rel_drawRightSection _ _ _ _ _ _).trans
                    ((rel_drawRightSection _ _ _ _ _ _).trans
                      (rel_drawRightSection _ _ _ _ _ _))))))))
    exact mem_of_rel hrel hm
  · obtain ⟨pg, x, y, f, q, c, hm⟩ := drawNameBlock_text_mem m
      (drawLeftColumnBackground initPdfState) (candidateFullNameOf resume)
      (by rw [hname, hupper]; exact h3)
    rw [hname, hupper] at hm
    have hrel2 : LayoutRel
        (drawNameBlock m (drawLeftColumnBackground initPdfState)
          (("Candidate Name").data))
        (buildResumePdf env m resume (localeOf resumeLanguage) none) := by
      unfold buildResumePdf
      rw [hname]
      exact (rel_drawPhotoBlock_skip _ _ _ (fun u hu => Option.noConfusion hu)).trans
        ((rel_drawContactBlock _ _ _ _).trans
          ((rel_drawLeftSection _ _ _ _ _ _).trans
            ((rel_drawLeftSection _ _ _ _ _ _).trans
              ((rel_drawLeftSection _ _ _ _ _ _).trans
                ((rel_drawRightSection _ _ _ _ _ _).trans
                  ((rel_drawRightSection _ _ _ _ _ _).trans
                    (rel_drawRightSection _ _ _ _ _ _)))))))
    exact ⟨pg, x, y, f, q, c, mem_of_rel hrel2 hm⟩

/-- C10, witness at the concrete whitespace input `"  \n \t "`. -/
theorem c10_whitespace_input_witness :
    candidateFullNameOf (("  \n \t ").data) = ("Candidate Name").data ∧
    ∃ st, handleDownloadPdf sampleEnv sampleMetrics (("  \n \t ").data)
        (("English").data) none = some st ∧
      Cmd.rect 1 0 0 leftColWidth pageHeight leftColBGColor ∈ st.cmds ∧
      ∃ pg x y f q c,
        Cmd.text pg x y (("CANDIDATE NAME").data) f q c ∈ st.cmds :=
  c10_whitespace_input sampleEnv sampleMetrics (("English").data)
    (("  \n \t ").data) (by decide) (by decide) rfl

/-! ## Claim C8: the layout is a pure function of its inputs -/

/-- C8: two runs over the same input under any two environments of effect
sources (randomness, clock, network, filesystem) produce identical draw
command sequences: the engine never consults the environment, so its output
is fully determined by the résumé text, language, photo and metrics. -/
theorem c8_determinism (e1 e2 : Env) (m : Metrics)
    (resume resumeLanguage : Line) (photo : Option Line) :
    buildResumePdf e1 m resume (localeOf resumeLanguage) photo =
      buildResumePdf e2 m resume (localeOf resumeLanguage) photo ∧
    handleDownloadPdf e1 m resume resumeLanguage photo =
      handleDownloadPdf e2 m resume resumeLanguage photo :=
  ⟨rfl, rfl⟩

end NailedJob
